import Mathlib

/-!
Verification of the concurrent-workflow scheduler of tamr-toolbox
(`tamr_toolbox/workflow/concurrent/Planner.py` and
`tamr_toolbox/workflow/concurrent/PlanNode.py`).

The Python sources of `Planner.py` and `PlanNode.py` are embedded shallowly.
External collaborators that are not part of the sources
(`Graph.py`, `PlanNodeStatus.py`, the per-project step catalogs and the
Tamr client's `Operation`/`Project` resources) are modelled from the
specification; each such definition carries a doc comment saying so.
-/

namespace TamrToolbox

/-- Modelled from the spec: the node status enumeration of
`PlanNodeStatus.py` (not among the sources).  The spec lists
`{PLANNED, SKIPPABLE, RUNNABLE, RUNNING, SUCCEEDED, FAILED, CANCELED, BLOCKED}`,
and all eight members are referenced by name in `Planner.py`. -/
inductive PlanNodeStatus where
  | planned
  | skippable
  | runnable
  | running
  | succeeded
  | failed
  | canceled
  | blocked
deriving DecidableEq, Repr

/-- Modelled from the spec: the external job state,
`Job.state ∈ {pending, running, succeeded, failed, canceled}`. -/
inductive OpState where
  | pending
  | running
  | succeeded
  | failed
  | canceled
deriving DecidableEq, Repr

/-- Modelled from the spec: the Tamr client's `Operation` resource, reduced to
the two attributes the scheduler reads — the job state and the human-readable
description whose `"No-op"` marker signals a no-op submission. -/
structure Operation where
  state : OpState
  description : String
deriving DecidableEq, Repr

/-- Modelled from the spec: the four supported project-type families of
`ProjectType` used in `PlanNode.__post_init__` and `WORKFLOW_MAP`. -/
inductive ProjectType where
  | SCHEMA_MAPPING_RECOMMENDATIONS
  | DEDUP
  | CATEGORIZATION
  | GOLDEN_RECORDS
deriving DecidableEq, Repr, Fintype

/-- Modelled from the spec: the Tamr client's `Project` resource, reduced to
its name and its (already classified) project type.  In Python the type is a
string parsed by `ProjectType[self.project.type]` in `__post_init__`; here the
classification is carried directly, so construction is total. -/
structure Project where
  name : String
  ptype : ProjectType
deriving DecidableEq, Repr

/-- Modelled from the spec: `schema_mapping.Steps` (the step enum referenced by
`PlanNode.py`; the catalog module itself is not among the sources). -/
inductive SchemaMappingStep where
  | UPDATE_UNIFIED_DATASET
deriving DecidableEq, Repr

/-- Modelled from the spec: `mastering.Steps`. -/
inductive MasteringStep where
  | UPDATE_UNIFIED_DATASET
  | GENERATE_PAIRS
  | APPLY_FEEDBACK
  | UPDATE_HIGH_IMPACT_PAIRS
  | UPDATE_CLUSTERS
  | PUBLISH_CLUSTERS
deriving DecidableEq, Repr

/-- Modelled from the spec: `categorization.Steps`. -/
inductive CategorizationStep where
  | UPDATE_UNIFIED_DATASET
  | APPLY_FEEDBACK
  | UPDATE_RESULTS_ONLY
deriving DecidableEq, Repr

/-- Modelled from the spec: `golden_records.Steps`. -/
inductive GoldenRecordsStep where
  | PROFILE_GOLDEN_RECORDS
  | UPDATE_GOLDEN_RECORDS
  | PUBLISH_GOLDEN_RECORDS
deriving DecidableEq, Repr

/-- The union of the four step enums, as used for
`PlanNode.current_step`/`steps_to_run`.  In Python equal-named members of
distinct enums are distinct values; the sum type preserves that. -/
inductive Step where
  | schemaMapping (s : SchemaMappingStep)
  | mastering (s : MasteringStep)
  | categorization (s : CategorizationStep)
  | goldenRecords (s : GoldenRecordsStep)
deriving DecidableEq, Repr

/-- Modelled from the spec: the backend job functions referenced by
`WORKFLOW_MAP` in `PlanNode.py` (opaque actions; one constructor per
referenced function). -/
inductive Action where
  | sm_update_unified_dataset
  | m_update_unified_dataset
  | m_generate_pairs
  | m_apply_feedback
  | m_update_pair_predictions
  | m_update_clusters
  | m_publish_clusters
  | c_update_unified_dataset
  | c_apply_feedback
  | c_update_results_only
  | gr_update_input_dataset_profiling_information
  | gr_update_golden_records
  | gr_publish_golden_records
deriving DecidableEq, Repr

/-- `WORKFLOW_MAP` of `PlanNode.py`: the nested dict keyed by project type and
step, mapping to the backend job function.  `none` models a missing key
(Python `KeyError`). -/
def WORKFLOW_MAP : ProjectType → Step → Option Action
  | .SCHEMA_MAPPING_RECOMMENDATIONS, .schemaMapping .UPDATE_UNIFIED_DATASET =>
      some .sm_update_unified_dataset
  | .DEDUP, .mastering .UPDATE_UNIFIED_DATASET => some .m_update_unified_dataset
  | .DEDUP, .mastering .GENERATE_PAIRS => some .m_generate_pairs
  | .DEDUP, .mastering .APPLY_FEEDBACK => some .m_apply_feedback
  | .DEDUP, .mastering .UPDATE_HIGH_IMPACT_PAIRS => some .m_update_pair_predictions
  | .DEDUP, .mastering .UPDATE_CLUSTERS => some .m_update_clusters
  | .DEDUP, .mastering .PUBLISH_CLUSTERS => some .m_publish_clusters
  | .CATEGORIZATION, .categorization .UPDATE_UNIFIED_DATASET => some .c_update_unified_dataset
  | .CATEGORIZATION, .categorization .APPLY_FEEDBACK => some .c_apply_feedback
  | .CATEGORIZATION, .categorization .UPDATE_RESULTS_ONLY => some .c_update_results_only
  | .GOLDEN_RECORDS, .goldenRecords .PROFILE_GOLDEN_RECORDS =>
      some .gr_update_input_dataset_profiling_information
  | .GOLDEN_RECORDS, .goldenRecords .UPDATE_GOLDEN_RECORDS => some .gr_update_golden_records
  | .GOLDEN_RECORDS, .goldenRecords .PUBLISH_GOLDEN_RECORDS => some .gr_publish_golden_records
  | _, _ => none

/-- The step list computed by `PlanNode.__post_init__` from the project type
and the `train` flag (verbatim from the four `if`/`elif` branches). -/
def projectSteps : ProjectType → Bool → List Step
  | .SCHEMA_MAPPING_RECOMMENDATIONS, _ => [.schemaMapping .UPDATE_UNIFIED_DATASET]
  | .DEDUP, true =>
      [.mastering .UPDATE_UNIFIED_DATASET,
       .mastering .GENERATE_PAIRS,
       .mastering .APPLY_FEEDBACK,
       .mastering .UPDATE_HIGH_IMPACT_PAIRS,
       .mastering .UPDATE_CLUSTERS,
       .mastering .PUBLISH_CLUSTERS]
  | .DEDUP, false =>
      [.mastering .UPDATE_UNIFIED_DATASET,
       .mastering .GENERATE_PAIRS,
       .mastering .UPDATE_HIGH_IMPACT_PAIRS,
       .mastering .UPDATE_CLUSTERS,
       .mastering .PUBLISH_CLUSTERS]
  | .CATEGORIZATION, true =>
      [.categorization .UPDATE_UNIFIED_DATASET,
       .categorization .APPLY_FEEDBACK,
       .categorization .UPDATE_RESULTS_ONLY]
  | .CATEGORIZATION, false =>
      [.categorization .UPDATE_UNIFIED_DATASET,
       .categorization .UPDATE_RESULTS_ONLY]
  | .GOLDEN_RECORDS, _ =>
      [.goldenRecords .PROFILE_GOLDEN_RECORDS,
       .goldenRecords .UPDATE_GOLDEN_RECORDS,
       .goldenRecords .PUBLISH_GOLDEN_RECORDS]

/-- The `PlanNode` dataclass of `PlanNode.py`.  `project_type` and
`project_steps` are the `init=False` fields computed by `__post_init__`. -/
structure PlanNode where
  name : String
  operations : Option (List Operation)
  project : Project
  priority : Int
  current_op : Option Operation
  status : PlanNodeStatus
  train : Bool
  project_type : ProjectType
  project_steps : List Step
  current_step : Option Step
  steps_to_run : Option (List Step)
deriving DecidableEq, Repr

/-- The `PlanNode` constructor including `__post_init__`: `project_type` is the
project's classification and `project_steps` is recomputed from it and `train`.
Argument order mirrors the dataclass field order.  Since the modelled
`ProjectType` carries exactly the four supported families, the
`NotImplementedError` branch of `__post_init__` is unreachable and construction
is total. -/
def mkPlanNode (name : String) (operations : Option (List Operation)) (project : Project)
    (priority : Int) (current_op : Option Operation) (status : PlanNodeStatus)
    (train : Bool) (current_step : Option Step) (steps_to_run : Option (List Step)) :
    PlanNode :=
  { name := name
    operations := operations
    project := project
    priority := priority
    current_op := current_op
    status := status
    train := train
    project_type := project.ptype
    project_steps := projectSteps project.ptype train
    current_step := current_step
    steps_to_run := steps_to_run }

/-- Substring search on character lists (`needle` occurs contiguously in
`hay`). -/
def charInfix (needle : List Char) : List Char → Bool
  | [] => needle.isEmpty
  | c :: rest => needle.isPrefixOf (c :: rest) || charInfix needle rest

/-- `"No-op" in s`: whether the no-op marker occurs as a substring of an
operation description. -/
def containsNoOp (s : String) : Bool := charInfix "No-op".toList s.toList

/-- Modelled from the spec: `PlanNodeStatus.from_plan_node` (from
`PlanNodeStatus.py`, not among the sources).  Per §4.1: with no current job the
status is passed through; a job flagged as a no-op yields SUCCEEDED directly;
a succeeded job yields SUCCEEDED when the remaining-step queue is empty and
RUNNABLE (ready to continue) otherwise; failed/canceled jobs yield
FAILED/CANCELED; any other job state leaves the node RUNNING. -/
def from_plan_node (n : PlanNode) : PlanNodeStatus :=
  match n.current_op with
  | none => n.status
  | some op =>
    if containsNoOp op.description then .succeeded
    else
      match op.state with
      | .succeeded =>
          if n.steps_to_run = none ∨ n.steps_to_run = some [] then .succeeded else .runnable
      | .failed => .failed
      | .canceled => .canceled
      | _ => .running

/-! ### Dependency graph (modelled from the spec)

`Graph.py` is not among the sources; the spec describes it as a DAG over node
names with queries `successors`, `predecessors`, `get_all_downstream_nodes`
(all transitively reachable names) and `get_projects_by_tier` (ordered mapping
tier → ordered list of names).  A graph is modelled as its edge list. -/

/-- Edge list of the dependency graph: `(a, b) ∈ G` means `a → b`
(b depends on a). -/
abbrev Graph := List (String × String)

/-- Modelled from the spec: `get_successors` — the set of direct successors of
a node (deduplicated, as Python returns a set). -/
def succsOf (G : Graph) (v : String) : List String :=
  ((G.filter (fun e => e.1 == v)).map (fun e => e.2)).dedup

/-- Modelled from the spec: `get_predecessors` — the set of direct
predecessors of a node. -/
def predsOf (G : Graph) (v : String) : List String :=
  ((G.filter (fun e => e.2 == v)).map (fun e => e.1)).dedup

/-- Nonempty forward walks from `v` of at most `fuel` edges. -/
def downstreamFuel (G : Graph) : Nat → String → List String
  | 0, _ => []
  | fuel + 1, v => (succsOf G v).flatMap (fun s => s :: downstreamFuel G fuel s)

/-- Modelled from the spec: `get_all_downstream_nodes` — every node
transitively reachable from `v`.  On a DAG every reachable node is reached by
a repetition-free walk, so `G.length + 1` edges of fuel suffice. -/
def downstreamOf (G : Graph) (v : String) : List String :=
  (downstreamFuel G (G.length + 1) v).dedup

/-- The names occurring in the graph. -/
def nodesOf (G : Graph) : List String :=
  (G.map (fun e => e.1) ++ G.map (fun e => e.2)).dedup

/-- Closure and acyclicity properties of the downstream query on a DAG,
stated over the names of the graph (decidable for a concrete graph):
(a) downstream sets are closed under successors, (b) direct successors are
downstream, (c) every downstream node has a direct predecessor that is the
root or itself downstream (reachability), (d) no node is downstream of itself
(acyclicity), (e) downstream sets of downstream nodes are contained in the
original (transitivity). -/
def GraphOK (G : Graph) : Prop :=
  (∀ v ∈ nodesOf G, ∀ z ∈ downstreamOf G v, ∀ s ∈ succsOf G z, s ∈ downstreamOf G v) ∧
  (∀ v ∈ nodesOf G, ∀ s ∈ succsOf G v, s ∈ downstreamOf G v) ∧
  (∀ v ∈ nodesOf G, ∀ z ∈ downstreamOf G v,
    ∃ q ∈ predsOf G z, q = v ∨ q ∈ downstreamOf G v) ∧
  (∀ v ∈ nodesOf G, v ∉ downstreamOf G v) ∧
  (∀ v ∈ nodesOf G, ∀ z ∈ downstreamOf G v, ∀ y ∈ downstreamOf G z, y ∈ downstreamOf G v)

instance (G : Graph) : Decidable (GraphOK G) := by
  unfold GraphOK; infer_instance

/-! ### The planner and `update_plan` (`Planner.py`)

The plan dict is modelled as a total function from names to nodes (the code
assumes every graph node is a key; `updated_plan[node]` would otherwise raise).
This value-level rendering captures the statuses observable through the most
recent planner; the Python-level aliasing of node objects between successive
plan dicts is modelled separately below for the copy-on-write claim. -/

/-- The `Planner` dataclass (plan, starting tier, graph; the `output_config`
dict does not influence any modelled behaviour and is omitted). -/
structure Planner where
  plan : String → PlanNode
  starting_tier : Nat
  graph : Graph

/-- Overwrite one node's status and operations in the plan
(`updated_plan[plan_node_name].status = node_status` and
`... .operations = plan_node.operations`). -/
def setNode (p : String → PlanNode) (v : String) (st : PlanNodeStatus)
    (ops : Option (List Operation)) : String → PlanNode :=
  fun u => if u = v then { p v with status := st, operations := ops } else p u

/-- Overwrite one node's status only. -/
def setStatus (p : String → PlanNode) (v : String) (st : PlanNodeStatus) :
    String → PlanNode :=
  fun u => if u = v then { p u with status := st } else p u

/-- The predecessor check of `update_plan`:
`all(updated_plan[x].status == SUCCEEDED or updated_plan[x].status == SKIPPABLE
for x in predecessor_nodes)`. -/
def allPredsDone (G : Graph) (p : String → PlanNode) (s : String) : Bool :=
  (predsOf G s).all fun x =>
    decide ((p x).status = .succeeded ∨ (p x).status = .skippable)

/-- The successor loop of `update_plan`: for each direct successor in turn,
mark it RUNNABLE when all of its direct predecessors are currently
SUCCEEDED/SKIPPABLE (the check reads the partially updated plan, as the Python
loop mutates `updated_plan` in place). -/
def unlockSuccessors (G : Graph) : (String → PlanNode) → List String → (String → PlanNode)
  | p, [] => p
  | p, s :: rest =>
      unlockSuccessors G (if allPredsDone G p s then setStatus p s .runnable else p) rest

/-- The FAILED branch of `update_plan`: every node downstream of the failed
node is set to BLOCKED (the Python loop assigns BLOCKED to each member of the
downstream list; the result is this pointwise update). -/
def blockDownstream (G : Graph) (p : String → PlanNode) (v : String) :
    String → PlanNode :=
  fun u => if u ∈ downstreamOf G v then { p u with status := .blocked } else p u

/-- `update_plan` of `Planner.py`, at the level of the plan map: overwrite the
changed node's status (recomputed by `from_plan_node`) and operations, then
propagate — FAILED blocks everything downstream; SUCCEEDED/SKIPPABLE may
unlock direct successors; every other status changes nothing else. -/
def updatePlanMap (G : Graph) (p : String → PlanNode) (nd : PlanNode) :
    String → PlanNode :=
  let node_status := from_plan_node nd
  let p1 := setNode p nd.name node_status nd.operations
  if node_status = .failed then
    blockDownstream G p1 nd.name
  else if node_status = .succeeded ∨ node_status = .skippable then
    unlockSuccessors G p1 (succsOf G nd.name)
  else
    p1

/-- `update_plan` of `Planner.py`: returns a planner with the updated plan and
the same graph, starting tier (and output config). -/
def update_plan (planner : Planner) (plan_node : PlanNode) : Planner :=
  { planner with plan := updatePlanMap planner.graph planner.plan plan_node }

/-! ### `from_graph` (`Planner.py`) -/

/-- The nodes created by `from_graph`, in iteration order over the tier
mapping (`get_projects_by_tier`) and each tier's project list: priority
`100 * tier + num`, status SKIPPABLE below the starting tier, RUNNABLE at it
and PLANNED above it; no operations or job yet.  `projects` models the
name → project lookup built from the client. -/
def fromGraphNodes (tierGraph : List (Nat × List String)) (startingTier : Nat)
    (train : Bool) (projects : String → Project) : List PlanNode :=
  tierGraph.flatMap fun tl =>
    tl.2.enum.map fun np =>
      mkPlanNode np.2 none (projects np.2) (100 * (tl.1 : Int) + np.1) none
        (if tl.1 < startingTier then .skippable
         else if tl.1 = startingTier then .runnable
         else .planned)
        train none none

/-! ### `poll` and `run_next_step` (`PlanNode.py`)

The external `Operation.poll()` round-trip is modelled by an oracle
`pollOp : Operation → Operation` giving the fresh snapshot of a job. -/

/-- `poll` of `PlanNode.py`.  Returns the pair
(input node after `poll`'s in-place mutations, returned node).  With no
current job the status is passed through; otherwise the job is re-polled and,
only if its state changed, the node's current op, operations list and status
are recomputed.  The returned node is rebuilt through the `PlanNode`
constructor, which omits `train` (so it defaults to `False`) and recomputes
`project_steps` in `__post_init__`. -/
def poll (pollOp : Operation → Operation) (plan_node : PlanNode) :
    PlanNode × PlanNode :=
  match plan_node.current_op with
  | none =>
      (plan_node,
       mkPlanNode plan_node.name plan_node.operations plan_node.project
         plan_node.priority none plan_node.status false plan_node.current_step
         plan_node.steps_to_run)
  | some current_op =>
      let updated_op := pollOp current_op
      if updated_op.state ≠ current_op.state then
        let updated_operations :=
          match plan_node.operations with
          | none => none
          | some l =>
              if current_op ∈ l then some ((l.filter (fun x => x ≠ current_op)) ++ [updated_op])
              else some l
        let mutated := { plan_node with
          current_op := some updated_op, operations := updated_operations }
        (mutated,
         mkPlanNode plan_node.name updated_operations plan_node.project
           plan_node.priority (some updated_op) (from_plan_node mutated) false
           plan_node.current_step plan_node.steps_to_run)
      else
        (plan_node,
         mkPlanNode plan_node.name plan_node.operations plan_node.project
           plan_node.priority (some updated_op) plan_node.status false
           plan_node.current_step plan_node.steps_to_run)

/-- The step `run_next_step` would submit next: the head of `project_steps`
when the node has never run, else the head of the remaining-step queue
(`none` models the Python `IndexError`/`TypeError` on an exhausted queue). -/
def nextStepOf (n : PlanNode) : Option Step :=
  match n.current_step with
  | none => n.project_steps.head?
  | some _ => n.steps_to_run.bind List.head?

/-- `run_next_step` of `PlanNode.py`.  `startJob` models invoking the backend
action from `WORKFLOW_MAP` asynchronously and taking the single returned
operation.  `none` models the uncaught Python exceptions: a missing
`WORKFLOW_MAP` key (configuration error) or an exhausted step queue.  Note the
Python code computes the returned status by mutating `current_op`,
`operations` and `current_step` on the input node and calling
`from_plan_node` on it before `steps_to_run` is trimmed, and rebuilds the
node without passing `train`. -/
def run_next_step (startJob : ProjectType → Step → Project → Operation)
    (plan_node : PlanNode) : Option PlanNode :=
  let picked : Option (Step × List Step) :=
    match plan_node.current_step with
    | none =>
        match plan_node.project_steps with
        | [] => none
        | s :: rest => some (s, rest)
    | some _ =>
        match plan_node.steps_to_run with
        | some (s :: rest) => some (s, rest)
        | _ => none
  match picked with
  | none => none
  | some (next_step, steps_to_run) =>
      match WORKFLOW_MAP plan_node.project_type next_step with
      | none => none
      | some _action =>
          let current_op := startJob plan_node.project_type next_step plan_node.project
          let operations_list :=
            match plan_node.operations with
            | none => [current_op]
            | some l => if current_op ∈ l then l else l ++ [current_op]
          let mutated := { plan_node with
            current_op := some current_op, operations := some operations_list,
            current_step := some next_step }
          some (mkPlanNode plan_node.name (some operations_list) plan_node.project
            plan_node.priority (some current_op) (from_plan_node mutated) false
            (some next_step) (some steps_to_run))

/-! ### The batch monitor (`PlanNode.py`)

Wall-clock time is modelled discretely: each loop iteration sleeps exactly
`polling_interval` seconds and polling is instantaneous, so the `while`
condition `time.time() - start_time < 3600*24*timeout` admits exactly
`⌈(3600*24*timeout) / polling_interval⌉` polling rounds.  The external world
is an oracle `w : Nat → Operation → Operation` giving each round's fresh job
snapshots. -/

/-- The status snapshot `{x.name: x.status for x in nodes}` as an ordered
(name, status) list; dict semantics (later duplicate keys win) live in
`statusDictGet`. -/
def snapshotOf (nodes : List PlanNode) : List (String × PlanNodeStatus) :=
  nodes.map fun n => (n.name, n.status)

/-- Lookup in a status dict built by insertion: the last binding wins. -/
def statusDictGet (l : List (String × PlanNodeStatus)) (v : String) :
    Option PlanNodeStatus :=
  (l.reverse.find? (fun e => e.1 == v)).map (fun e => e.2)

/-- Python dict equality for status snapshots: the two key sets agree and
every key maps to the same status. -/
def statusDictEq (a b : List (String × PlanNodeStatus)) : Bool :=
  ((a.map (fun e => e.1)).all fun v => statusDictGet a v == statusDictGet b v) &&
  ((b.map (fun e => e.1)).all fun v => statusDictGet a v == statusDictGet b v)

/-- Number of polling rounds the `while` loop admits before timing out. -/
def numPolls (timeout polling_interval : Nat) : Nat :=
  (3600 * 24 * timeout + polling_interval - 1) / polling_interval

/-- The monitor's polling loop: each round re-polls the (possibly mutated)
node list, compares the fresh snapshot dict with the initial one, returns the
freshly polled list on any difference, and raises a `RuntimeError` (modelled
as `.error`) when the rounds are exhausted. -/
def monitorLoop (w : Nat → Operation → Operation) :
    Nat → Nat → List PlanNode → List (String × PlanNodeStatus) →
    Except String (List PlanNode)
  | 0, _, _, _ => .error "timed out"
  | fuel + 1, k, nodes, initial_statuses =>
      let pairs := nodes.map (poll (w k))
      let updated_nodes := pairs.map (fun q => q.2)
      if statusDictEq initial_statuses (snapshotOf updated_nodes) then
        monitorLoop w fuel (k + 1) (pairs.map (fun q => q.1)) initial_statuses
      else
        .ok updated_nodes

/-- `monitor` of `PlanNode.py`: empty input returns an empty list immediately;
otherwise capture the initial snapshot and run the polling loop under the
timeout (given in whole days). -/
def monitor (w : Nat → Operation → Operation) (nodes : List PlanNode)
    (timeout polling_interval : Nat) : Except String (List PlanNode) :=
  if nodes.isEmpty then .ok []
  else monitorLoop w (numPolls timeout polling_interval) 0 nodes (snapshotOf nodes)

/-- The node list after `k` monitoring rounds of in-place `poll` mutations. -/
def iterNodes (w : Nat → Operation → Operation) (nodes : List PlanNode) :
    Nat → List PlanNode
  | 0 => nodes
  | k + 1 => ((iterNodes w nodes k).map (poll (w k))).map fun q => q.1

/-- The freshly polled list produced in round `k` (0-based). -/
def polledAt (w : Nat → Operation → Operation) (nodes : List PlanNode) (k : Nat) :
    List PlanNode :=
  ((iterNodes w nodes k).map (poll (w k))).map fun q => q.2

/-! ### One scheduling round of `execute` (`Planner.py`) -/

/-- Python slice `xs[0:k]` for an arbitrary (possibly negative) integer bound:
a negative bound counts from the end, clamped at zero. -/
def pySliceTo {α : Type} (xs : List α) (k : Int) : List α :=
  if k < 0 then xs.take (xs.length - k.natAbs) else xs.take k.toNat

/-- Stable insertion into a priority-sorted list: a node goes in front of the
first node of no smaller priority, so earlier insertion-order elements of
equal priority stay in front. -/
def insertByPriority (x : PlanNode) : List PlanNode → List PlanNode
  | [] => [x]
  | y :: ys =>
      if x.priority ≤ y.priority then x :: y :: ys else y :: insertByPriority x ys

/-- The plan's nodes sorted ascending by priority.  Python `sorted` is stable;
a stable insertion sort produces the identical list. -/
def sortedByPriority (nodes : List PlanNode) : List PlanNode :=
  nodes.foldr insertByPriority []

/-- The nodes `execute` submits in one round: sort by priority, count RUNNING
nodes, and slice the RUNNABLE list to `concurrency_level - len(running)`
elements (the slice is taken verbatim, including Python's negative-bound
semantics when more nodes are RUNNING than the concurrency level). -/
def executeSelection (planNodes : List PlanNode) (concurrency_level : Int) :
    List PlanNode :=
  let sorted_jobs := sortedByPriority planNodes
  let runnable_nodes := sorted_jobs.filter fun x => decide (x.status = .runnable)
  let running_nodes := sorted_jobs.filter fun x => decide (x.status = .running)
  let num_to_submit : Int := concurrency_level - running_nodes.length
  if (runnable_nodes.length : Int) ≥ num_to_submit then
    pySliceTo runnable_nodes num_to_submit
  else
    runnable_nodes

/-- The copy of a pre-existing RUNNING node that `execute` appends to the
monitoring list: rebuilt through the constructor with `priority=0` and
without passing `train`. -/
def runningCopyForMonitor (x : PlanNode) : PlanNode :=
  mkPlanNode x.name x.operations x.project 0 x.current_op x.status false
    x.current_step x.steps_to_run

/-- The monitoring list of one `execute` round: the just-submitted nodes
(results of `run_next_step`) extended with copies of the pre-existing RUNNING
nodes. -/
def buildNodesToMonitor (submitted : List PlanNode) (running : List PlanNode) :
    List PlanNode :=
  submitted ++ running.map runningCopyForMonitor

/-- The no-op test of `execute`: some operation in the node's history has the
`"No-op"` marker in its description. -/
def isNoopNode (x : PlanNode) : Bool :=
  (x.operations.getD []).any fun op => containsNoOp op.description

/-- The no-op split of `execute`: `noop_jobs` are the members of the (already
merged) monitoring list whose operations history carries a no-op marker, and
the remaining list keeps the nodes not equal to any of them.  Returns
(no-op nodes, nodes still to monitor). -/
def noopSplit (nodes_to_monitor : List PlanNode) :
    List PlanNode × List PlanNode :=
  let noop_jobs := nodes_to_monitor.filter isNoopNode
  (noop_jobs, nodes_to_monitor.filter fun x => decide (x ∉ noop_jobs))

/-! ### Python object semantics of `update_plan` (for the copy-on-write claim)

`update_plan` performs `updated_plan = dict(original_plan)` — a shallow copy:
both dicts map names to the *same* `PlanNode` objects — and then assigns
`updated_plan[...].status`/`.operations` on those shared objects.  To express
what the original planner observes afterwards, the mutable node objects are
modelled as a heap indexed by object ids, and a plan dict as a map from names
to object ids. -/

/-- The mutable portion of a `PlanNode` object touched by `update_plan`. -/
structure NodeObj where
  status : PlanNodeStatus
  operations : Option (List Operation)
deriving DecidableEq, Repr

/-- The heap of `PlanNode` objects, indexed by object id. -/
abbrev Heap := Nat → NodeObj

/-- A plan dict under Python object semantics: names map to object ids. -/
structure PlannerObj where
  planRefs : String → Nat
  graph : Graph

/-- The successor loop of `update_plan`, mutating node objects on the heap. -/
def unlockSuccessorsH (G : Graph) (refs : String → Nat) :
    Heap → List String → Heap
  | h, [] => h
  | h, s :: rest =>
      let ok := (predsOf G s).all fun x =>
        decide ((h (refs x)).status = .succeeded ∨ (h (refs x)).status = .skippable)
      let h' := if ok then
          (fun i => if i = refs s then { h i with status := .runnable } else h i)
        else h
      unlockSuccessorsH G refs h' rest

/-- `update_plan` under Python object semantics: the returned planner holds a
fresh dict with the same object ids (`dict(original_plan)`), and all status
writes mutate the shared heap objects. -/
def updatePlanObj (h : Heap) (planner : PlannerObj) (name : String)
    (node_status : PlanNodeStatus) (ops : Option (List Operation)) :
    Heap × PlannerObj :=
  let refs := planner.planRefs
  let h1 : Heap := fun i =>
    if i = refs name then { h i with status := node_status, operations := ops } else h i
  let h2 : Heap :=
    if node_status = .failed then
      fun i =>
        if i ∈ (downstreamOf planner.graph name).map refs then
          { h1 i with status := .blocked }
        else h1 i
    else if node_status = .succeeded ∨ node_status = .skippable then
      unlockSuccessorsH planner.graph refs h1 (succsOf planner.graph name)
    else h1
  (h2, { planRefs := refs, graph := planner.graph })

/-! ### Status predicates used by the scheduler invariants -/

/-- A node currently eligible for submission or monitoring: exactly the
statuses `execute` draws its submission and monitoring buckets from. -/
def isActive (st : PlanNodeStatus) : Prop := st = .runnable ∨ st = .running

/-- A node that counts as satisfied for the unlock rule. -/
def isDoneOk (st : PlanNodeStatus) : Prop := st = .succeeded ∨ st = .skippable

/-- A node that has been started at some point of the run (or finished
by running). -/
def isStarted (st : PlanNodeStatus) : Prop :=
  st = .runnable ∨ st = .running ∨ st = .succeeded ∨ st = .failed

/-- A node no round has touched yet, or one shut off by an upstream
failure. -/
def isInert (st : PlanNodeStatus) : Prop := st = .planned ∨ st = .blocked

instance (st : PlanNodeStatus) : Decidable (isActive st) := by unfold isActive; infer_instance
instance (st : PlanNodeStatus) : Decidable (isDoneOk st) := by unfold isDoneOk; infer_instance
instance (st : PlanNodeStatus) : Decidable (isStarted st) := by unfold isStarted; infer_instance
instance (st : PlanNodeStatus) : Decidable (isInert st) := by unfold isInert; infer_instance

/-- Run-level well-formedness, part 1: every node that has ever been
submitted has all direct predecessors SUCCEEDED or SKIPPABLE (a node is
submitted only after the unlock rule fired for it). -/
def PredsSettled (G : Graph) (p : String → PlanNode) : Prop :=
  ∀ v, isStarted ((p v).status) → ∀ q ∈ predsOf G v, isDoneOk ((p q).status)

/-- Run-level well-formedness, part 2: everything downstream of a RUNNABLE or
RUNNING node is still PLANNED or BLOCKED. -/
def DownstreamFresh (G : Graph) (p : String → PlanNode) : Prop :=
  ∀ v, isActive ((p v).status) → ∀ z ∈ downstreamOf G v, isInert ((p z).status)

/-- One scheduler-driven plan update: `execute` passes to `update_plan` only
nodes drawn from its RUNNABLE bucket (just submitted) or RUNNING bucket
(monitored), so the changed node's name is currently RUNNABLE or RUNNING in
the plan. -/
def RunStep (G : Graph) (p q : String → PlanNode) : Prop :=
  ∃ nd : PlanNode, isActive ((p nd.name).status) ∧ q = updatePlanMap G p nd

/-- The blocked-forever invariant for a failed node `X`: `X` stays
FAILED/BLOCKED, everything downstream of it stays BLOCKED, and its direct
predecessors stay SUCCEEDED/SKIPPABLE (so the unlock rule can never re-fire
for `X`). -/
def BlockedInv (G : Graph) (p : String → PlanNode) (X : String) : Prop :=
  ((p X).status = .failed ∨ (p X).status = .blocked) ∧
  (∀ z ∈ downstreamOf G X, (p z).status = .blocked) ∧
  (∀ q ∈ predsOf G X, isDoneOk ((p q).status))

/-! ### Graph lemmas -/

theorem mem_succsOf {G : Graph} {v s : String} :
    s ∈ succsOf G v ↔ (v, s) ∈ G := by
  simp only [succsOf, List.mem_dedup, List.mem_map, List.mem_filter, beq_iff_eq]
  constructor
  · rintro ⟨e, ⟨he, h1⟩, h2⟩
    have : e = (v, s) := by
      cases e; simp_all
    simpa [this] using he
  · intro h
    exact ⟨(v, s), ⟨h, rfl⟩, rfl⟩

theorem mem_predsOf {G : Graph} {v q : String} :
    q ∈ predsOf G v ↔ (q, v) ∈ G := by
  simp only [predsOf, List.mem_dedup, List.mem_map, List.mem_filter, beq_iff_eq]
  constructor
  · rintro ⟨e, ⟨he, h1⟩, h2⟩
    have : e = (q, v) := by
      cases e; simp_all
    simpa [this] using he
  · intro h
    exact ⟨(q, v), ⟨h, rfl⟩, rfl⟩

theorem succs_preds_dual {G : Graph} {v s : String} :
    s ∈ succsOf G v ↔ v ∈ predsOf G s := by
  rw [mem_succsOf, mem_predsOf]

theorem succsOf_eq_nil_of_not_node {G : Graph} {v : String}
    (h : v ∉ nodesOf G) : succsOf G v = [] := by
  have hv : ∀ e ∈ G, ¬(e.1 == v) = true := by
    intro e he hbeq
    apply h
    simp only [nodesOf, List.mem_dedup, List.mem_append, List.mem_map]
    exact Or.inl ⟨e, he, by simpa [beq_iff_eq] using hbeq⟩
  simp [succsOf, List.filter_eq_nil_iff.mpr hv]

theorem downstreamFuel_eq_nil {G : Graph} {v : String}
    (h : succsOf G v = []) : ∀ f, downstreamFuel G f v = [] := by
  intro f
  cases f with
  | zero => rfl
  | succ f => simp [downstreamFuel, h]

theorem downstreamOf_eq_nil_of_not_node {G : Graph} {v : String}
    (h : v ∉ nodesOf G) : downstreamOf G v = [] := by
  simp [downstreamOf, downstreamFuel_eq_nil (succsOf_eq_nil_of_not_node h)]

theorem gOK_closed {G : Graph} (hG : GraphOK G) {v z s : String}
    (hz : z ∈ downstreamOf G v) (hs : s ∈ succsOf G z) :
    s ∈ downstreamOf G v := by
  by_cases hv : v ∈ nodesOf G
  · exact hG.1 v hv z hz s hs
  · rw [downstreamOf_eq_nil_of_not_node hv] at hz
    cases hz

theorem gOK_succ_mem {G : Graph} (hG : GraphOK G) {v s : String}
    (hs : s ∈ succsOf G v) : s ∈ downstreamOf G v := by
  by_cases hv : v ∈ nodesOf G
  · exact hG.2.1 v hv s hs
  · rw [succsOf_eq_nil_of_not_node hv] at hs
    cases hs

theorem gOK_pred_of_down {G : Graph} (hG : GraphOK G) {v z : String}
    (hz : z ∈ downstreamOf G v) :
    ∃ q ∈ predsOf G z, q = v ∨ q ∈ downstreamOf G v := by
  by_cases hv : v ∈ nodesOf G
  · exact hG.2.2.1 v hv z hz
  · rw [downstreamOf_eq_nil_of_not_node hv] at hz
    cases hz

theorem gOK_irrefl {G : Graph} (hG : GraphOK G) {v : String} :
    v ∉ downstreamOf G v := by
  by_cases hv : v ∈ nodesOf G
  · exact hG.2.2.2.1 v hv
  · rw [downstreamOf_eq_nil_of_not_node hv]
    exact List.not_mem_nil v

theorem gOK_trans {G : Graph} (hG : GraphOK G) {v z y : String}
    (hz : z ∈ downstreamOf G v) (hy : y ∈ downstreamOf G z) :
    y ∈ downstreamOf G v := by
  by_cases hv : v ∈ nodesOf G
  · exact hG.2.2.2.2 v hv z hz y hy
  · rw [downstreamOf_eq_nil_of_not_node hv] at hz
    cases hz

theorem gOK_no_self_succ {G : Graph} (hG : GraphOK G) {v : String} :
    v ∉ succsOf G v :=
  fun h => gOK_irrefl hG (gOK_succ_mem hG h)

theorem gOK_pred_not_down {G : Graph} (hG : GraphOK G) {v q : String}
    (hq : q ∈ predsOf G v) (hd : q ∈ downstreamOf G v) : False := by
  have hv : v ∈ succsOf G q := succs_preds_dual.mpr hq
  exact gOK_irrefl hG (gOK_closed hG hd hv)

theorem gOK_pred_ne {G : Graph} (hG : GraphOK G) {v q : String}
    (hq : q ∈ predsOf G v) : q ≠ v := by
  intro h
  subst h
  exact gOK_no_self_succ hG (succs_preds_dual.mpr hq)

/-! ### Characterizing `update_plan` pointwise -/

theorem all_congr_mem {α : Type} {l : List α} {f g : α → Bool}
    (h : ∀ a ∈ l, f a = g a) : l.all f = l.all g := by
  induction l with
  | nil => rfl
  | cons a t ih =>
    simp only [List.all_cons, h a (List.mem_cons_self a t),
      ih fun b hb => h b (List.mem_cons_of_mem a hb)]

theorem setNode_status (p : String → PlanNode) (v : String) (st : PlanNodeStatus)
    (ops : Option (List Operation)) (u : String) :
    (setNode p v st ops u).status = if u = v then st else (p u).status := by
  unfold setNode
  split <;> rfl

theorem setStatus_status (p : String → PlanNode) (v : String) (st : PlanNodeStatus)
    (u : String) :
    (setStatus p v st u).status = if u = v then st else (p u).status := by
  unfold setStatus
  split <;> rfl

theorem allPredsDone_iff {G : Graph} {p : String → PlanNode} {s : String} :
    allPredsDone G p s = true ↔ ∀ x ∈ predsOf G s, isDoneOk ((p x).status) := by
  unfold allPredsDone isDoneOk
  simp

theorem allPredsDone_congr {G : Graph} {p p' : String → PlanNode} {s : String}
    (h : ∀ x ∈ predsOf G s, (isDoneOk ((p' x).status) ↔ isDoneOk ((p x).status))) :
    allPredsDone G p' s = allPredsDone G p s := by
  unfold allPredsDone
  refine all_congr_mem fun a ha => ?_
  have := h a ha
  unfold isDoneOk at this
  simp only [decide_eq_decide]
  exact this

theorem unlock_eq (G : Graph) (p : String → PlanNode) (l : List String)
    (hnd : l.Nodup) (hns : ∀ s ∈ l, ¬isDoneOk ((p s).status)) (v : String) :
    unlockSuccessors G p l v =
      if v ∈ l ∧ allPredsDone G p v = true then { p v with status := .runnable }
      else p v := by
  induction l generalizing p with
  | nil => simp [unlockSuccessors]
  | cons s rest ih =>
    have hnds : s ∉ rest := (List.nodup_cons.mp hnd).1
    have hndr : rest.Nodup := (List.nodup_cons.mp hnd).2
    have hnss : ¬isDoneOk ((p s).status) := hns s (List.mem_cons_self s rest)
    set p' := if allPredsDone G p s then setStatus p s .runnable else p with hp'
    have hstep : unlockSuccessors G p (s :: rest) v = unlockSuccessors G p' rest v := rfl
    have hne : ∀ u, u ≠ s → p' u = p u := by
      intro u hu
      rw [hp']
      split
      · unfold setStatus
        simp [hu]
      · rfl
    have hss : ¬isDoneOk ((p' s).status) := by
      rw [hp']
      split
      · rw [setStatus_status]
        simp [isDoneOk]
      · exact hnss
    have hcongr : ∀ x, allPredsDone G p' x = allPredsDone G p x := by
      intro x
      refine allPredsDone_congr fun t ht => ?_
      by_cases hts : t = s
      · subst hts
        constructor
        · intro h; exact absurd h hss
        · intro h; exact absurd h hnss
      · rw [hne t hts]
    have hns' : ∀ x ∈ rest, ¬isDoneOk ((p' x).status) := by
      intro x hx
      have hxs : x ≠ s := fun h => hnds (h ▸ hx)
      rw [hne x hxs]
      exact hns x (List.mem_cons_of_mem s hx)
    rw [hstep, ih p' hndr hns', hcongr v]
    by_cases hvs : v = s
    · subst hvs
      have hvr : v ∉ rest := hnds
      simp only [hvr, false_and, if_neg, if_false]
      have hmem : v ∈ v :: rest := List.mem_cons_self v rest
      by_cases hap : allPredsDone G p v = true
      · simp only [hmem, hap, and_self, if_pos, true_and]
        rw [hp']
        simp only [hap, if_pos]
        unfold setStatus
        simp
      · simp only [hap, and_false, if_neg, if_false]
        rw [hp']
        simp [hap]
    · rw [hne v hvs]
      simp only [List.mem_cons, hvs, false_or]

theorem updateStatus_failed (G : Graph) (p : String → PlanNode) (nd : PlanNode)
    (h : from_plan_node nd = .failed) (v : String) :
    ((updatePlanMap G p nd) v).status =
      if v ∈ downstreamOf G nd.name then .blocked
      else if v = nd.name then .failed
      else (p v).status := by
  unfold updatePlanMap blockDownstream
  simp only [h, if_pos]
  split
  · rfl
  · rw [setNode_status]

/-- The condition under which the SUCCEEDED/SKIPPABLE branch of `update_plan`
(re)sets a node to RUNNABLE: it is a direct successor of the changed node and
all its direct predecessors are SUCCEEDED/SKIPPABLE in the plan with the
changed node's status already overwritten. -/
def flipCond (G : Graph) (p : String → PlanNode) (nd : PlanNode) (v : String) : Prop :=
  v ∈ succsOf G nd.name ∧
  allPredsDone G (setNode p nd.name (from_plan_node nd) nd.operations) v = true

instance (G : Graph) (p : String → PlanNode) (nd : PlanNode) (v : String) :
    Decidable (flipCond G p nd v) := by
  unfold flipCond
  infer_instance

theorem updateStatus_done (G : Graph) (p : String → PlanNode) (nd : PlanNode)
    (h : from_plan_node nd = .succeeded ∨ from_plan_node nd = .skippable)
    (hself : nd.name ∉ succsOf G nd.name)
    (hns : ∀ s ∈ succsOf G nd.name, ¬isDoneOk ((p s).status)) (v : String) :
    ((updatePlanMap G p nd) v).status =
      if flipCond G p nd v
      then .runnable
      else if v = nd.name then from_plan_node nd
      else (p v).status := by
  unfold flipCond
  have hnf : from_plan_node nd ≠ .failed := by
    rcases h with h | h <;> simp [h]
  unfold updatePlanMap
  simp only [if_neg hnf, if_pos h]
  set p1 := setNode p nd.name (from_plan_node nd) nd.operations with hp1
  have hns1 : ∀ s ∈ succsOf G nd.name, ¬isDoneOk ((p1 s).status) := by
    intro s hs
    have hsne : s ≠ nd.name := fun hcon => hself (hcon ▸ hs)
    rw [hp1, setNode_status]
    simp only [hsne, if_neg, if_false]
    exact hns s hs
  rw [unlock_eq G p1 (succsOf G nd.name) (List.nodup_dedup _) hns1 v]
  split
  · rfl
  · rw [hp1, setNode_status]

theorem updateStatus_other (G : Graph) (p : String → PlanNode) (nd : PlanNode)
    (hf : from_plan_node nd ≠ .failed)
    (hd : ¬(from_plan_node nd = .succeeded ∨ from_plan_node nd = .skippable))
    (v : String) :
    ((updatePlanMap G p nd) v).status =
      if v = nd.name then from_plan_node nd else (p v).status := by
  unfold updatePlanMap
  simp only [if_neg hf, if_neg hd]
  rw [setNode_status]

/-! ### Preservation of the run invariants by `update_plan` -/

theorem isStarted_of_isActive {st : PlanNodeStatus} (h : isActive st) : isStarted st := by
  rcases h with h | h <;> simp [isStarted, h]

theorem not_isDoneOk_of_isActive {st : PlanNodeStatus} (h : isActive st) :
    ¬isDoneOk st := by
  rcases h with h | h <;> subst h <;> simp [isDoneOk]

theorem not_isActive_of_isInert {st : PlanNodeStatus} (h : isInert st) :
    ¬isActive st := by
  rcases h with h | h <;> subst h <;> simp [isActive]

theorem not_isDoneOk_of_isInert {st : PlanNodeStatus} (h : isInert st) :
    ¬isDoneOk st := by
  rcases h with h | h <;> subst h <;> simp [isDoneOk]

theorem preserve_failed (G : Graph) (hG : GraphOK G) (p : String → PlanNode)
    (nd : PlanNode) (hact : isActive ((p nd.name).status))
    (h1 : PredsSettled G p) (h2 : DownstreamFresh G p)
    (hσ : from_plan_node nd = .failed) :
    PredsSettled G (updatePlanMap G p nd) ∧ DownstreamFresh G (updatePlanMap G p nd) := by
  have hchar := updateStatus_failed G p nd hσ
  constructor
  · intro v hv q hq
    rw [hchar] at hv
    rw [hchar q]
    by_cases hvD : v ∈ downstreamOf G nd.name
    · rw [if_pos hvD] at hv
      exact absurd hv (by simp [isStarted])
    · rw [if_neg hvD] at hv
      by_cases hvn : v = nd.name
      · subst hvn
        rw [if_pos rfl] at hv
        have hqd : isDoneOk ((p q).status) := h1 nd.name (isStarted_of_isActive hact) q hq
        have hqD : q ∉ downstreamOf G nd.name := fun hc => gOK_pred_not_down hG hq hc
        have hqn : q ≠ nd.name := gOK_pred_ne hG hq
        rw [if_neg hqD, if_neg hqn]
        exact hqd
      · rw [if_neg hvn] at hv
        have hqd : isDoneOk ((p q).status) := h1 v hv q hq
        have hqn : q ≠ nd.name := by
          intro h
          rw [h] at hqd
          exact (not_isDoneOk_of_isActive hact) hqd
        have hqD : q ∉ downstreamOf G nd.name := by
          intro hc
          exact hvD (gOK_closed hG hc (succs_preds_dual.mpr hq))
        rw [if_neg hqD, if_neg hqn]
        exact hqd
  · intro m hm z hz
    rw [hchar] at hm
    rw [hchar z]
    by_cases hmD : m ∈ downstreamOf G nd.name
    · rw [if_pos hmD] at hm
      exact absurd hm (by simp [isActive])
    · rw [if_neg hmD] at hm
      by_cases hmn : m = nd.name
      · rw [if_pos hmn] at hm
        exact absurd hm (by simp [isActive])
      · rw [if_neg hmn] at hm
        have hpre : isInert ((p z).status) := h2 m hm z hz
        by_cases hzD : z ∈ downstreamOf G nd.name
        · rw [if_pos hzD]
          simp [isInert]
        · have hzn : z ≠ nd.name := by
            intro h
            rw [h] at hpre
            exact (not_isActive_of_isInert hpre) hact
          rw [if_neg hzD, if_neg hzn]
          exact hpre

theorem flipCond_pred_done {G : Graph} {p : String → PlanNode} {nd : PlanNode}
    {v : String} (h : flipCond G p nd v) {q : String} (hq : q ∈ predsOf G v) :
    isDoneOk (if q = nd.name then from_plan_node nd else (p q).status) := by
  have hall := allPredsDone_iff.mp h.2 q hq
  rwa [setNode_status] at hall

theorem preserve_done (G : Graph) (hG : GraphOK G) (p : String → PlanNode)
    (nd : PlanNode) (hact : isActive ((p nd.name).status))
    (h1 : PredsSettled G p) (h2 : DownstreamFresh G p)
    (hσ : from_plan_node nd = .succeeded ∨ from_plan_node nd = .skippable) :
    PredsSettled G (updatePlanMap G p nd) ∧ DownstreamFresh G (updatePlanMap G p nd) := by
  have hself : nd.name ∉ succsOf G nd.name := gOK_no_self_succ hG
  have hsuccIn : ∀ s ∈ succsOf G nd.name, isInert ((p s).status) := fun s hs =>
    h2 nd.name hact s (gOK_succ_mem hG hs)
  have hns : ∀ s ∈ succsOf G nd.name, ¬isDoneOk ((p s).status) := fun s hs =>
    not_isDoneOk_of_isInert (hsuccIn s hs)
  have hchar := updateStatus_done G p nd hσ hself hns
  constructor
  · intro v hv q hq
    rw [hchar] at hv
    rw [hchar q]
    by_cases hfv : flipCond G p nd v
    · have hqd1 := flipCond_pred_done hfv hq
      by_cases hqn : q = nd.name
      · have hqflip : ¬flipCond G p nd q := fun hc => hself (hqn ▸ hc.1)
        rw [if_neg hqflip, if_pos hqn]
        rw [if_pos hqn] at hqd1
        exact hqd1
      · rw [if_neg hqn] at hqd1
        have hqflip : ¬flipCond G p nd q := fun hc => (hns q hc.1) hqd1
        rw [if_neg hqflip, if_neg hqn]
        exact hqd1
    · rw [if_neg hfv] at hv
      by_cases hvn : v = nd.name
      · rw [if_pos hvn] at hv
        have hqP : q ∈ predsOf G nd.name := hvn ▸ hq
        have hqd : isDoneOk ((p q).status) := h1 nd.name (isStarted_of_isActive hact) q hqP
        have hqn : q ≠ nd.name := gOK_pred_ne hG hqP
        have hqflip : ¬flipCond G p nd q := fun hc =>
          gOK_pred_not_down hG hqP (gOK_succ_mem hG hc.1)
        rw [if_neg hqflip, if_neg hqn]
        exact hqd
      · rw [if_neg hvn] at hv
        have hqd : isDoneOk ((p q).status) := h1 v hv q hq
        have hqn : q ≠ nd.name := by
          intro h
          rw [h] at hqd
          exact (not_isDoneOk_of_isActive hact) hqd
        have hqflip : ¬flipCond G p nd q := fun hc => (hns q hc.1) hqd
        rw [if_neg hqflip, if_neg hqn]
        exact hqd
  · intro m hm z hz
    rw [hchar] at hm
    rw [hchar z]
    by_cases hfm : flipCond G p nd m
    · have hmS : m ∈ succsOf G nd.name := hfm.1
      have hmD : m ∈ downstreamOf G nd.name := gOK_succ_mem hG hmS
      have hmn : m ≠ nd.name := fun h => hself (h ▸ hmS)
      have hzD : z ∈ downstreamOf G nd.name := gOK_trans hG hmD hz
      have hzIn : isInert ((p z).status) := h2 nd.name hact z hzD
      have hzn : z ≠ nd.name := by
        intro h
        subst h
        exact gOK_irrefl hG (gOK_trans hG hmD hz)
      have hzflip : ¬flipCond G p nd z := by
        intro hc
        obtain ⟨q, hqP, hqc⟩ := gOK_pred_of_down hG hz
        have hqd1 := flipCond_pred_done hc hqP
        rcases hqc with rfl | hqDm
        · rw [if_neg hmn] at hqd1
          exact (not_isDoneOk_of_isInert (h2 nd.name hact q hmD)) hqd1
        · have hqDn : q ∈ downstreamOf G nd.name := gOK_trans hG hmD hqDm
          have hqn : q ≠ nd.name := by
            intro h
            subst h
            exact gOK_irrefl hG hqDn
          rw [if_neg hqn] at hqd1
          exact (not_isDoneOk_of_isInert (h2 nd.name hact q hqDn)) hqd1
      rw [if_neg hzflip, if_neg hzn]
      exact hzIn
    · rw [if_neg hfm] at hm
      by_cases hmn : m = nd.name
      · rw [if_pos hmn] at hm
        rcases hσ with h | h <;> rw [h] at hm <;>
          exact absurd hm (by simp [isActive])
      · rw [if_neg hmn] at hm
        have hzIn : isInert ((p z).status) := h2 m hm z hz
        have hzn : z ≠ nd.name := by
          intro h
          subst h
          exact (not_isActive_of_isInert (h2 m hm _ hz)) hact
        have hzflip : ¬flipCond G p nd z := by
          intro hc
          obtain ⟨q, hqP, hqc⟩ := gOK_pred_of_down hG hz
          have hqd1 := flipCond_pred_done hc hqP
          rcases hqc with rfl | hqDm
          · rw [if_neg hmn] at hqd1
            exact (not_isDoneOk_of_isActive hm) hqd1
          · have hqn : q ≠ nd.name := by
              intro h
              subst h
              exact (not_isActive_of_isInert (h2 m hm _ hqDm)) hact
            rw [if_neg hqn] at hqd1
            exact (not_isDoneOk_of_isInert (h2 m hm q hqDm)) hqd1
        rw [if_neg hzflip, if_neg hzn]
        exact hzIn

theorem preserve_other (G : Graph) (hG : GraphOK G) (p : String → PlanNode)
    (nd : PlanNode) (hact : isActive ((p nd.name).status))
    (h1 : PredsSettled G p) (h2 : DownstreamFresh G p)
    (hf : from_plan_node nd ≠ .failed)
    (hd : ¬(from_plan_node nd = .succeeded ∨ from_plan_node nd = .skippable)) :
    PredsSettled G (updatePlanMap G p nd) ∧ DownstreamFresh G (updatePlanMap G p nd) := by
  have hchar := updateStatus_other G p nd hf hd
  constructor
  · intro v hv q hq
    rw [hchar] at hv
    rw [hchar q]
    by_cases hvn : v = nd.name
    · rw [if_pos hvn] at hv
      have hqP : q ∈ predsOf G nd.name := hvn ▸ hq
      have hqd : isDoneOk ((p q).status) := h1 nd.name (isStarted_of_isActive hact) q hqP
      have hqn : q ≠ nd.name := gOK_pred_ne hG hqP
      rw [if_neg hqn]
      exact hqd
    · rw [if_neg hvn] at hv
      have hqd : isDoneOk ((p q).status) := h1 v hv q hq
      have hqn : q ≠ nd.name := by
        intro h
        rw [h] at hqd
        exact (not_isDoneOk_of_isActive hact) hqd
      rw [if_neg hqn]
      exact hqd
  · intro m hm z hz
    rw [hchar] at hm
    rw [hchar z]
    by_cases hmn : m = nd.name
    · rw [if_pos hmn] at hm
      have hzIn : isInert ((p z).status) := h2 nd.name hact z (hmn ▸ hz)
      have hzn : z ≠ nd.name := by
        intro h
        subst h
        exact gOK_irrefl hG (hmn ▸ hz)
      rw [if_neg hzn]
      exact hzIn
    · rw [if_neg hmn] at hm
      have hzIn : isInert ((p z).status) := h2 m hm z hz
      have hzn : z ≠ nd.name := by
        intro h
        subst h
        exact (not_isActive_of_isInert (h2 m hm _ hz)) hact
      rw [if_neg hzn]
      exact hzIn

theorem step_preserves (G : Graph) (hG : GraphOK G) (p : String → PlanNode)
    (nd : PlanNode) (hact : isActive ((p nd.name).status))
    (h1 : PredsSettled G p) (h2 : DownstreamFresh G p) :
    PredsSettled G (updatePlanMap G p nd) ∧ DownstreamFresh G (updatePlanMap G p nd) := by
  by_cases hf : from_plan_node nd = .failed
  · exact preserve_failed G hG p nd hact h1 h2 hf
  · by_cases hd : from_plan_node nd = .succeeded ∨ from_plan_node nd = .skippable
    · exact preserve_done G hG p nd hact h1 h2 hd
    · exact preserve_other G hG p nd hact h1 h2 hf hd

theorem not_isDoneOk_of_blockedOr {st : PlanNodeStatus}
    (h : st = .failed ∨ st = .blocked) : ¬isDoneOk st := by
  rcases h with h | h <;> subst h <;> simp [isDoneOk]

theorem not_isActive_of_blockedOr {st : PlanNodeStatus}
    (h : st = .failed ∨ st = .blocked) : ¬isActive st := by
  rcases h with h | h <;> subst h <;> simp [isActive]

theorem preserve_blocked (G : Graph) (hG : GraphOK G) (p : String → PlanNode)
    (nd : PlanNode) (X : String) (hact : isActive ((p nd.name).status))
    (h2 : DownstreamFresh G p) (hK : BlockedInv G p X) :
    BlockedInv G (updatePlanMap G p nd) X := by
  obtain ⟨hKX, hKD, hKP⟩ := hK
  have hnX : nd.name ≠ X := by
    intro h
    rw [h] at hact
    exact (not_isActive_of_blockedOr hKX) hact
  have hnD : nd.name ∉ downstreamOf G X := by
    intro h
    have := hKD nd.name h
    rw [this] at hact
    exact absurd hact (by simp [isActive])
  have hnP : nd.name ∉ predsOf G X := by
    intro h
    exact (not_isDoneOk_of_isActive hact) (hKP nd.name h)
  by_cases hf : from_plan_node nd = .failed
  · have hchar := updateStatus_failed G p nd hf
    refine ⟨?_, ?_, ?_⟩
    · rw [hchar X]
      by_cases hXD : X ∈ downstreamOf G nd.name
      · rw [if_pos hXD]
        exact Or.inr rfl
      · rw [if_neg hXD, if_neg (fun h => hnX h.symm)]
        exact hKX
    · intro z hz
      rw [hchar z]
      by_cases hzD : z ∈ downstreamOf G nd.name
      · rw [if_pos hzD]
      · have hzn : z ≠ nd.name := by
          intro h
          exact hnD (h ▸ hz)
        rw [if_neg hzD, if_neg hzn]
        exact hKD z hz
    · intro q hq
      rw [hchar q]
      have hqD : q ∉ downstreamOf G nd.name := by
        intro hc
        exact (not_isDoneOk_of_isInert (h2 nd.name hact q hc)) (hKP q hq)
      have hqn : q ≠ nd.name := by
        intro h
        exact hnP (h ▸ hq)
      rw [if_neg hqD, if_neg hqn]
      exact hKP q hq
  · by_cases hd : from_plan_node nd = .succeeded ∨ from_plan_node nd = .skippable
    · have hself : nd.name ∉ succsOf G nd.name := gOK_no_self_succ hG
      have hns : ∀ s ∈ succsOf G nd.name, ¬isDoneOk ((p s).status) := fun s hs =>
        not_isDoneOk_of_isInert (h2 nd.name hact s (gOK_succ_mem hG hs))
      have hchar := updateStatus_done G p nd hd hself hns
      refine ⟨?_, ?_, ?_⟩
      · rw [hchar X]
        have hXflip : ¬flipCond G p nd X := fun hc =>
          hnP (succs_preds_dual.mp hc.1)
        rw [if_neg hXflip, if_neg (fun h => hnX h.symm)]
        exact hKX
      · intro z hz
        rw [hchar z]
        have hzflip : ¬flipCond G p nd z := by
          intro hc
          obtain ⟨q, hqP, hqc⟩ := gOK_pred_of_down hG hz
          have hqd1 := flipCond_pred_done hc hqP
          rcases hqc with rfl | hqDX
          · rw [if_neg (fun h => hnX h.symm)] at hqd1
            exact (not_isDoneOk_of_blockedOr hKX) hqd1
          · have hqn : q ≠ nd.name := by
              intro h
              exact hnD (h ▸ hqDX)
            rw [if_neg hqn] at hqd1
            rw [hKD q hqDX] at hqd1
            exact absurd hqd1 (by simp [isDoneOk])
        have hzn : z ≠ nd.name := by
          intro h
          exact hnD (h ▸ hz)
        rw [if_neg hzflip, if_neg hzn]
        exact hKD z hz
      · intro q hq
        rw [hchar q]
        have hqflip : ¬flipCond G p nd q := by
          intro hc
          exact (not_isDoneOk_of_isInert
            (h2 nd.name hact q (gOK_succ_mem hG hc.1))) (hKP q hq)
        have hqn : q ≠ nd.name := by
          intro h
          exact hnP (h ▸ hq)
        rw [if_neg hqflip, if_neg hqn]
        exact hKP q hq
    · have hchar := updateStatus_other G p nd hf hd
      refine ⟨?_, ?_, ?_⟩
      · rw [hchar X, if_neg (fun h => hnX h.symm)]
        exact hKX
      · intro z hz
        have hzn : z ≠ nd.name := by
          intro h
          exact hnD (h ▸ hz)
        rw [hchar z, if_neg hzn]
        exact hKD z hz
      · intro q hq
        have hqn : q ≠ nd.name := by
          intro h
          exact hnP (h ▸ hq)
        rw [hchar q, if_neg hqn]
        exact hKP q hq

theorem establish_blocked (G : Graph) (hG : GraphOK G) (p : String → PlanNode)
    (nd : PlanNode) (hact : isActive ((p nd.name).status))
    (h1 : PredsSettled G p) (hσ : from_plan_node nd = .failed) :
    BlockedInv G (updatePlanMap G p nd) nd.name := by
  have hchar := updateStatus_failed G p nd hσ
  refine ⟨?_, ?_, ?_⟩
  · rw [hchar nd.name, if_neg (gOK_irrefl hG), if_pos rfl]
    exact Or.inl rfl
  · intro z hz
    rw [hchar z, if_pos hz]
  · intro q hq
    have hqD : q ∉ downstreamOf G nd.name := fun hc => gOK_pred_not_down hG hq hc
    have hqn : q ≠ nd.name := gOK_pred_ne hG hq
    rw [hchar q, if_neg hqD, if_neg hqn]
    exact h1 nd.name (isStarted_of_isActive hact) q hq

theorem reach_inv (G : Graph) (hG : GraphOK G) (X : String)
    {p q : String → PlanNode}
    (hinv : PredsSettled G p ∧ DownstreamFresh G p ∧ BlockedInv G p X)
    (hr : Relation.ReflTransGen (RunStep G) p q) :
    PredsSettled G q ∧ DownstreamFresh G q ∧ BlockedInv G q X := by
  induction hr with
  | refl => exact hinv
  | tail hab hbc ih =>
      obtain ⟨nd, hact, rfl⟩ := hbc
      obtain ⟨ih1, ih2, ihK⟩ := ih
      obtain ⟨hp1, hp2⟩ := step_preserves G hG _ nd hact ih1 ih2
      exact ⟨hp1, hp2, preserve_blocked G hG _ nd X hact ih2 ihK⟩

/-! ### Claim C2 -/

/-- C2: once `update_plan` is applied with a changed node whose new status is
FAILED, every node transitively downstream of it is BLOCKED in the resulting
plan, and stays BLOCKED (in particular never becomes RUNNABLE) in every plan
reachable by further scheduler-driven `update_plan` steps of the same run
(steps whose changed node is currently RUNNABLE or RUNNING in the plan, which
is what `execute` passes to `update_plan`).  The hypotheses: the graph queries
satisfy the DAG closure laws, and the starting plan satisfies the run
invariants (predecessors of started nodes are settled, downstream of active
nodes is untouched) that hold for every plan a run reaches. -/
theorem c2_failed_blocks_downstream (planner : Planner) (nd : PlanNode)
    (hG : GraphOK planner.graph)
    (h1 : PredsSettled planner.graph planner.plan)
    (h2 : DownstreamFresh planner.graph planner.plan)
    (hact : isActive ((planner.plan nd.name).status))
    (hfail : from_plan_node nd = .failed) :
    ∀ q : String → PlanNode,
      Relation.ReflTransGen (RunStep planner.graph) ((update_plan planner nd).plan) q →
      ∀ z ∈ downstreamOf planner.graph nd.name,
        (q z).status = .blocked ∧ (q z).status ≠ .runnable := by
  intro q hr z hz
  have hstep := step_preserves planner.graph hG planner.plan nd hact h1 h2
  have hinv0 : PredsSettled planner.graph ((update_plan planner nd).plan) ∧
      DownstreamFresh planner.graph ((update_plan planner nd).plan) ∧
      BlockedInv planner.graph ((update_plan planner nd).plan) nd.name :=
    ⟨hstep.1, hstep.2,
     establish_blocked planner.graph hG planner.plan nd hact h1 hfail⟩
  have hq := reach_inv planner.graph hG nd.name hinv0 hr
  have hb := hq.2.2.2.1 z hz
  exact ⟨hb, by rw [hb]; simp⟩

/-- A concrete instance for `c2_failed_blocks_downstream`: the two-node graph
x → y, x RUNNING and failing, y PLANNED. -/
def c2Graph : Graph := [("x", "y")]

/-- Plan for the C2 instance: x RUNNING, everything else PLANNED. -/
def c2Plan : String → PlanNode := fun v =>
  if v = "x" then
    mkPlanNode "x" none ⟨"x", .GOLDEN_RECORDS⟩ 0
      (some ⟨.running, "profiling"⟩) .running false
      (some (.goldenRecords .PROFILE_GOLDEN_RECORDS))
      (some [.goldenRecords .UPDATE_GOLDEN_RECORDS])
  else
    mkPlanNode v none ⟨v, .GOLDEN_RECORDS⟩ 100 none .planned false none none

/-- The C2 planner instance. -/
def c2Planner : Planner := ⟨c2Plan, 0, c2Graph⟩

/-- The changed node handed to `update_plan` in the C2 instance: x's job came
back failed. -/
def c2Failed : PlanNode :=
  mkPlanNode "x" (some [⟨.failed, "profiling"⟩]) ⟨"x", .GOLDEN_RECORDS⟩ 0
    (some ⟨.failed, "profiling"⟩) .running false
    (some (.goldenRecords .PROFILE_GOLDEN_RECORDS))
    (some [.goldenRecords .UPDATE_GOLDEN_RECORDS])

theorem c2_failed_blocks_downstream_witness :
    GraphOK c2Graph ∧
    isActive ((c2Planner.plan c2Failed.name).status) ∧
    from_plan_node c2Failed = .failed ∧
    (((update_plan c2Planner c2Failed).plan "y").status = .blocked ∧
      ((update_plan c2Planner c2Failed).plan "y").status ≠ .runnable) := by
  refine ⟨by decide, by decide, by decide, ?_⟩
  have h1 : PredsSettled c2Planner.graph c2Planner.plan := by
    intro v hv q hq
    by_cases hx : v = "x"
    · subst hx
      have : predsOf c2Graph "x" = [] := by decide
      rw [show c2Planner.graph = c2Graph from rfl, this] at hq
      cases hq
    · exfalso
      apply (by decide : ¬isStarted PlanNodeStatus.planned)
      have hst : (c2Planner.plan v).status = .planned := by
        show (c2Plan v).status = .planned
        unfold c2Plan
        rw [if_neg hx]
        rfl
      rwa [hst] at hv
  have h2 : DownstreamFresh c2Planner.graph c2Planner.plan := by
    intro v hv z hz
    by_cases hx : v = "x"
    · subst hx
      have hzy : z ∈ downstreamOf c2Graph "x" := hz
      have : downstreamOf c2Graph "x" = ["y"] := by decide
      rw [this] at hzy
      have hzeq : z = "y" := by
        cases hzy with
        | head => rfl
        | tail _ h => cases h
      subst hzeq
      show isInert ((c2Plan "y").status)
      decide
    · exfalso
      apply (by decide : ¬isActive PlanNodeStatus.planned)
      have hst : (c2Planner.plan v).status = .planned := by
        show (c2Plan v).status = .planned
        unfold c2Plan
        rw [if_neg hx]
        rfl
      rwa [hst] at hv
  have := c2_failed_blocks_downstream c2Planner c2Failed (by decide) h1 h2
    (by decide) (by decide) ((update_plan c2Planner c2Failed).plan)
    Relation.ReflTransGen.refl "y" (by decide)
  exact this

/-! ### Claim C3 -/

/-- Graph for the C3 instance: a → b. -/
def c3Graph : Graph := [("a", "b")]

/-- Plan for the C3 instance: b BLOCKED, everything else RUNNING. -/
def c3Plan : String → PlanNode := fun v =>
  if v = "b" then
    mkPlanNode "b" none ⟨"b", .GOLDEN_RECORDS⟩ 100 none .blocked false none none
  else
    mkPlanNode v none ⟨v, .GOLDEN_RECORDS⟩ 0 none .running false none none

/-- The C3 planner instance. -/
def c3Planner : Planner := ⟨c3Plan, 0, c3Graph⟩

/-- The changed node for C3: a's last step succeeded (empty queue). -/
def c3Done : PlanNode :=
  mkPlanNode "a" (some [⟨.succeeded, "publish"⟩]) ⟨"a", .GOLDEN_RECORDS⟩ 0
    (some ⟨.succeeded, "publish"⟩) .running false
    (some (.goldenRecords .PUBLISH_GOLDEN_RECORDS)) (some [])

/-- C3 counterexample: the claim says the transition to RUNNABLE happens only
from PLANNED, but `update_plan` sets a successor RUNNABLE without inspecting
its current status — here the successor b is BLOCKED before the update and
RUNNABLE after it. -/
theorem c3_counterexample :
    from_plan_node c3Done = .succeeded ∧
    (c3Planner.plan "b").status = .blocked ∧
    ((update_plan c3Planner c3Done).plan "b").status = .runnable := by
  decide

/-- C3 (amended): when `update_plan` is applied with a changed node whose new
status is SUCCEEDED or SKIPPABLE, a direct successor's status is set to
RUNNABLE exactly when every one of that successor's direct predecessors has
status SUCCEEDED or SKIPPABLE in the updated plan (the plan with the changed
node's status already overwritten); if at least one predecessor has any other
status the successor's status is left unchanged.  The transition happens
regardless of the successor's previous status, not only from PLANNED.
(The freshness hypothesis — no direct successor is already
SUCCEEDED/SKIPPABLE — holds in every plan a run reaches, since everything
downstream of the active changed node is PLANNED or BLOCKED.) -/
theorem c3_unlock_rule (planner : Planner) (nd : PlanNode)
    (hdone : from_plan_node nd = .succeeded ∨ from_plan_node nd = .skippable)
    (hG : GraphOK planner.graph)
    (hfresh : ∀ s ∈ succsOf planner.graph nd.name,
      ¬isDoneOk ((planner.plan s).status)) :
    ∀ s ∈ succsOf planner.graph nd.name,
      ((update_plan planner nd).plan s).status =
        if allPredsDone planner.graph
             (setNode planner.plan nd.name (from_plan_node nd) nd.operations) s = true
        then .runnable
        else (planner.plan s).status := by
  intro s hs
  have hself : nd.name ∉ succsOf planner.graph nd.name := gOK_no_self_succ hG
  have hsn : s ≠ nd.name := fun h => hself (h ▸ hs)
  have hchar := updateStatus_done planner.graph planner.plan nd hdone hself hfresh s
  rw [show ((update_plan planner nd).plan s).status
      = ((updatePlanMap planner.graph planner.plan nd) s).status from rfl, hchar]
  by_cases hall : allPredsDone planner.graph
      (setNode planner.plan nd.name (from_plan_node nd) nd.operations) s = true
  · rw [if_pos hall, if_pos ⟨hs, hall⟩]
  · rw [if_neg hall, if_neg (fun hc : flipCond _ _ _ _ => hall hc.2), if_neg hsn]

theorem c3_unlock_rule_witness :
    (from_plan_node c3Done = .succeeded ∨ from_plan_node c3Done = .skippable) ∧
    GraphOK c3Graph ∧
    (∀ s ∈ succsOf c3Graph "a", ¬isDoneOk ((c3Plan s).status)) ∧
    ((update_plan c3Planner c3Done).plan "b").status =
      (if allPredsDone c3Graph
            (setNode c3Plan "a" (from_plan_node c3Done) c3Done.operations) "b" = true
       then .runnable
       else (c3Plan "b").status) := by
  refine ⟨Or.inl (by decide), by decide, by decide, ?_⟩
  exact c3_unlock_rule c3Planner c3Done (Or.inl (by decide)) (by decide)
    (by decide) "b" (by decide)

/-! ### Claims C7 and C8 (`from_graph`) -/

/-- Project lookup used by the `from_graph` instances. -/
def grProjects : String → Project := fun v => ⟨v, .GOLDEN_RECORDS⟩

/-- C7 counterexample: the claim says every node of a freshly built plan is
PLANNED or SKIPPABLE, but `from_graph` marks nodes at exactly the starting
tier RUNNABLE — here the only node of the graph. -/
theorem c7_counterexample :
    ∃ n ∈ fromGraphNodes [(0, ["a"])] 0 false grProjects,
      ¬(n.status = .planned ∨ n.status = .skippable) := by
  decide

/-- C7 (amended): every node of the plan constructed by `from_graph` has
initial status PLANNED, SKIPPABLE or RUNNABLE — SKIPPABLE below the starting
tier, RUNNABLE at it and PLANNED above it; no node starts in any other
status. -/
theorem c7_initial_statuses (tierGraph : List (Nat × List String))
    (startingTier : Nat) (train : Bool) (projects : String → Project) :
    ∀ n ∈ fromGraphNodes tierGraph startingTier train projects,
      n.status = .planned ∨ n.status = .skippable ∨ n.status = .runnable := by
  intro n hn
  simp only [fromGraphNodes, List.mem_flatMap, List.mem_map] at hn
  obtain ⟨tl, htl, np, hnp, rfl⟩ := hn
  simp only [mkPlanNode]
  split_ifs <;> simp

theorem c7_initial_statuses_witness :
    ∃ n ∈ fromGraphNodes [(0, ["a"])] 0 false grProjects,
      n.status = .planned ∨ n.status = .skippable ∨ n.status = .runnable := by
  refine ⟨(fromGraphNodes [(0, ["a"])] 0 false grProjects).head (by decide), ?_, ?_⟩
  · exact List.head_mem _
  · exact c7_initial_statuses [(0, ["a"])] 0 false grProjects _ (List.head_mem _)

/-- The tier mapping used for the C8 counterexample: 101 declarations in
tier 0 and one in tier 1. -/
def c8TierGraph : List (Nat × List String) :=
  [(0, (List.range 101).map fun i => "n" ++ toString i), (1, ["z"])]

set_option maxRecDepth 8000 in
/-- C8 counterexample: `from_graph` assigns `priority = 100 * tier + num`,
so the 101st node of tier 0 gets priority 100 — equal to the first node of
tier 1 — refuting pairwise distinctness (and tier-major ordering). -/
theorem c8_counterexample :
    ¬((fromGraphNodes c8TierGraph 0 false grProjects).map
        (fun n => n.priority)).Nodup := by
  decide

/-- C8 (amended): provided the tier mapping lists tiers in strictly
ascending order and no tier holds more than 100 nodes, the priorities
assigned by `from_graph` are strictly increasing along the construction
order (tier-major, declaration order within a tier) — in particular pairwise
distinct, with every lower-tier node's priority strictly below every
higher-tier node's. -/
theorem c8_priorities (tierGraph : List (Nat × List String))
    (startingTier : Nat) (train : Bool) (projects : String → Project)
    (hsorted : (tierGraph.map Prod.fst).Pairwise (· < ·))
    (hsize : ∀ tl ∈ tierGraph, tl.2.length ≤ 100) :
    ((fromGraphNodes tierGraph startingTier train projects).map
        (fun n => n.priority)).Pairwise (· < ·) := by
  have hmap : ((fromGraphNodes tierGraph startingTier train projects).map
      (fun n => n.priority)) =
      (tierGraph.map (fun tl =>
        tl.2.enum.map fun np => 100 * (tl.1 : Int) + (np.1 : Int))).flatten := by
    simp only [fromGraphNodes, List.flatMap_def, List.map_flatten, List.map_map,
      Function.comp_def]
    rfl
  rw [hmap, List.pairwise_flatten]
  refine ⟨?_, ?_⟩
  · intro l hl
    simp only [List.mem_map] at hl
    obtain ⟨tl, htl, rfl⟩ := hl
    have henum : tl.2.enum.map (fun np => 100 * (tl.1 : Int) + (np.1 : Int))
        = (tl.2.enum.map Prod.fst).map (fun i : Nat => 100 * (tl.1 : Int) + (i : Int)) := by
      rw [List.map_map]
      rfl
    rw [henum, List.enum_map_fst]
    refine (List.pairwise_lt_range tl.2.length).map
      (fun i : Nat => 100 * (tl.1 : Int) + (i : Int)) ?_
    intro a b hab
    show 100 * (tl.1 : Int) + (a : Int) < 100 * (tl.1 : Int) + (b : Int)
    omega
  · rw [List.pairwise_map]
    have hp : tierGraph.Pairwise (fun a b => a.1 < b.1) := by
      rwa [List.pairwise_map] at hsorted
    refine hp.imp_of_mem ?_
    intro a b ha hb hab x hx y hy
    simp only [List.mem_map] at hx hy
    obtain ⟨np, hnp, rfl⟩ := hx
    obtain ⟨mp, hmp, rfl⟩ := hy
    have hna : np.1 < a.2.length := by
      have hg := List.mem_enum_iff_getElem?.mp hnp
      exact (List.getElem?_eq_some.mp hg).1
    have hsa : a.2.length ≤ 100 := hsize a ha
    have h99n : np.1 ≤ 99 := by omega
    have h99 : (np.1 : Int) ≤ 99 := by exact_mod_cast h99n
    have hmb : (0 : Int) ≤ (mp.1 : Int) := Int.ofNat_nonneg mp.1
    have hab' : (a.1 : Int) < (b.1 : Int) := by exact_mod_cast hab
    omega

theorem c8_priorities_witness :
    ((([(0, ["a", "b"]), (1, ["c"])] : List (Nat × List String)).map
        Prod.fst).Pairwise (· < ·)) ∧
    (∀ tl ∈ ([(0, ["a", "b"]), (1, ["c"])] : List (Nat × List String)),
        tl.2.length ≤ 100) ∧
    ((fromGraphNodes [(0, ["a", "b"]), (1, ["c"])] 0 false grProjects).map
        (fun n => n.priority)).Pairwise (· < ·) :=
  ⟨by decide, by decide,
   c8_priorities [(0, ["a", "b"]), (1, ["c"])] 0 false grProjects
     (by decide) (by decide)⟩

/-! ### Claim C10 -/

theorem workflow_covers_steps :
    ∀ pt : ProjectType, ∀ tr : Bool, ∀ s ∈ projectSteps pt tr,
      (WORKFLOW_MAP pt s).isSome := by
  decide

theorem projectSteps_ne_nil : ∀ pt : ProjectType, ∀ tr : Bool,
    projectSteps pt tr ≠ [] := by
  decide

/-- C10: every step of the step list computed by `__post_init__` has an entry
in `WORKFLOW_MAP` under the node's project type; hence, for a node whose
`current_step`/`steps_to_run` only hold steps of its `project_steps` (and
whose queue is nonempty once a current step exists), the catalog lookup
`WORKFLOW_MAP[project_type][next_step]` performed by `run_next_step` finds a
key, and `run_next_step` does not fail. -/
theorem c10_workflow_lookup (startJob : ProjectType → Step → Project → Operation)
    (n : PlanNode)
    (hps : n.project_steps = projectSteps n.project_type n.train)
    (hsub : ∀ l, n.steps_to_run = some l → ∀ s ∈ l, s ∈ n.project_steps)
    (hqueue : n.current_step.isSome → ∃ s l, n.steps_to_run = some (s :: l)) :
    (∀ s ∈ n.project_steps, (WORKFLOW_MAP n.project_type s).isSome) ∧
    (∀ st, nextStepOf n = some st → (WORKFLOW_MAP n.project_type st).isSome) ∧
    (run_next_step startJob n).isSome := by
  have hcover : ∀ s ∈ n.project_steps, (WORKFLOW_MAP n.project_type s).isSome := by
    intro s hs
    rw [hps] at hs
    exact workflow_covers_steps n.project_type n.train s hs
  refine ⟨hcover, ?_, ?_⟩
  · intro st hst
    unfold nextStepOf at hst
    match hcur : n.current_step with
    | none =>
        rw [hcur] at hst
        have hmem : st ∈ n.project_steps := by
          match hproj : n.project_steps with
          | [] => rw [hproj] at hst; cases hst
          | s :: rest =>
              rw [hproj] at hst
              simp only [List.head?] at hst
              cases hst
              exact List.mem_cons_self _ _
        exact hcover st hmem
    | some cs =>
        rw [hcur] at hst
        obtain ⟨s, l, hsl⟩ := hqueue (by rw [hcur]; rfl)
        rw [hsl] at hst
        simp only [Option.bind_some, List.head?] at hst
        cases hst
        exact hcover st (hsub (st :: l) hsl st (List.mem_cons_self _ _))
  · unfold run_next_step
    match hcur : n.current_step with
    | none =>
        have hne : n.project_steps ≠ [] := by
          rw [hps]
          exact projectSteps_ne_nil n.project_type n.train
        match hproj : n.project_steps with
        | [] => exact absurd hproj hne
        | s :: rest =>
            have hsome := hcover s (hproj ▸ List.mem_cons_self _ _)
            simp only [hcur, hproj]
            match hw : WORKFLOW_MAP n.project_type s with
            | none => rw [hw] at hsome; cases hsome
            | some a => simp
    | some cs =>
        obtain ⟨s, l, hsl⟩ := hqueue (by rw [hcur]; rfl)
        have hsome := hcover s (hsub (s :: l) hsl s (List.mem_cons_self _ _))
        simp only [hcur, hsl]
        match hw : WORKFLOW_MAP n.project_type s with
        | none => rw [hw] at hsome; cases hsome
        | some a => simp

/-- A concrete node for the C10 witness: a fresh DEDUP node that has not run
yet. -/
def c10Node : PlanNode :=
  mkPlanNode "d" none ⟨"d", .DEDUP⟩ 0 none .runnable false none none

theorem c10_workflow_lookup_witness :
    c10Node.project_steps = projectSteps c10Node.project_type c10Node.train ∧
    (run_next_step (fun _ _ _ => ⟨.pending, "job"⟩) c10Node).isSome := by
  refine ⟨by decide, ?_⟩
  exact (c10_workflow_lookup (fun _ _ _ => ⟨.pending, "job"⟩) c10Node (by decide)
    (by intro l hl; cases hl) (by intro h; cases (by decide : c10Node.current_step = none) ▸ h)).2.2

/-! ### Claim C1 -/

/-- A node with no job history, used to populate concrete plans. -/
def bareNode (name : String) (priority : Int) (st : PlanNodeStatus) : PlanNode :=
  mkPlanNode name none ⟨name, .GOLDEN_RECORDS⟩ priority none st false none none

/-- Plan for the C1 failing input: two RUNNING nodes, two RUNNABLE nodes,
`concurrency_level = 1`. -/
def c1Plan : List PlanNode :=
  [bareNode "r1" 0 .running, bareNode "r2" 1 .running,
   bareNode "a" 2 .runnable, bareNode "b" 3 .runnable]

/-- C1 (code-bug evidence): with two RUNNING nodes and `concurrency_level = 1`
the slot count `num_to_submit` is −1, yet `execute`'s slice
`runnable_nodes[0:num_to_submit]` — Python's negative-bound slice — submits
one node ("a") instead of none: the claim's `min(max(s,0), |R|) = 0` bound is
violated whenever `s` is strictly negative and `|R| > −s`. -/
theorem c1_negative_slots_submit :
    ((c1Plan.filter fun x => decide (x.status = .running)).length : Int) = 2 ∧
    (executeSelection c1Plan 1).map (fun n => n.name) = ["a"] := by
  decide

/-! ### Claim C9 -/

/-- A pre-existing RUNNING node whose operations history contains a no-op
operation from an earlier step, while its current job is a real running
one. -/
def c9RunningNode : PlanNode :=
  mkPlanNode "r"
    (some [⟨.succeeded, "Tamr No-op: dataset already streamable"⟩,
           ⟨.running, "updating golden records"⟩])
    ⟨"r", .GOLDEN_RECORDS⟩ 5 (some ⟨.running, "updating golden records"⟩)
    .running false (some (.goldenRecords .UPDATE_GOLDEN_RECORDS))
    (some [.goldenRecords .PUBLISH_GOLDEN_RECORDS])

/-- C9 (code-bug evidence): `execute` computes the no-op split on the merged
monitoring list (just-submitted nodes *plus* the copies of pre-existing
RUNNING nodes), so a RUNNING node whose history carries a no-op marker is
classified as a no-op: it is update_plan'd immediately and excluded from the
monitor batch — here the batch left to monitor is empty — contradicting the
claim that the split touches just-submitted nodes only and every pre-existing
RUNNING node is monitored. -/
theorem c9_running_node_filtered_as_noop :
    c9RunningNode.status = .running ∧
    (noopSplit (buildNodesToMonitor [] [c9RunningNode])).1
      = [runningCopyForMonitor c9RunningNode] ∧
    (noopSplit (buildNodesToMonitor [] [c9RunningNode])).2 = [] := by
  decide

/-! ### Claim C6 -/

/-- Heap for the C6 failing input: one node object, RUNNING. -/
def c6Heap : Heap := fun _ => ⟨.running, none⟩

/-- Planner for the C6 failing input: node "a" refers to object 0; empty
graph. -/
def c6Planner : PlannerObj := ⟨fun _ => 0, []⟩

/-- C6 (code-bug evidence): `update_plan`'s `dict(original_plan)` is a shallow
copy, so assigning `.status` on `updated_plan[name]` mutates the `PlanNode`
object shared with the original planner's dict: after the call the *original*
planner's node "a" reads SUCCEEDED, not its previous RUNNING. -/
theorem c6_shallow_copy_mutates_original :
    (c6Heap (c6Planner.planRefs "a")).status = .running ∧
    ((updatePlanObj c6Heap c6Planner "a" .succeeded (some [])).1
        (c6Planner.planRefs "a")).status = .succeeded := by
  decide

/-! ### Claim C5 -/

/-- A DEDUP node with `train = True` (six-step pipeline) and no current
job. -/
def c5TrainNode : PlanNode :=
  mkPlanNode "m" none ⟨"m", .DEDUP⟩ 3 none .runnable true none none

/-- C5 counterexample: `poll` rebuilds the node without passing `train`
through the constructor, so `train` resets to `False` and `__post_init__`
recomputes the five-step list — the returned node differs from the input in
the `train` flag and the derived step list even though the current job is
`None`. -/
theorem c5_counterexample :
    c5TrainNode.current_op = none ∧
    (poll (fun op => op) c5TrainNode).2 ≠ c5TrainNode := by
  decide

/-- C5 (amended): for every PlanNode with `train = False` (and the
constructor-derived fields consistent with it) whose current job is `None` or
whose freshly polled job snapshot equals the recorded job, `poll` returns a
node equal to the input in every field. -/
theorem c5_poll_identity (pollOp : Operation → Operation) (n : PlanNode)
    (htrain : n.train = false)
    (hty : n.project_type = n.project.ptype)
    (hsteps : n.project_steps = projectSteps n.project.ptype false)
    (hop : n.current_op = none ∨ ∃ op, n.current_op = some op ∧ pollOp op = op) :
    (poll pollOp n).2 = n := by
  obtain ⟨name, ops, proj, prio, cop, st, tr, pty, psteps, cstep, srun⟩ := n
  simp only at htrain hty hsteps
  subst htrain
  subst hty
  subst hsteps
  rcases hop with hnone | ⟨op, hsome, hfix⟩
  · simp only at hnone
    subst hnone
    simp [poll, mkPlanNode]
  · simp only at hsome
    subst hsome
    simp [poll, hfix, mkPlanNode]

/-- A categorization node with `train = False` mid-run, for the C5
witness. -/
def c5PlainNode : PlanNode :=
  mkPlanNode "p" (some [⟨.running, "updating unified dataset"⟩])
    ⟨"p", .CATEGORIZATION⟩ 2 (some ⟨.running, "updating unified dataset"⟩)
    .running false (some (.categorization .UPDATE_UNIFIED_DATASET))
    (some [.categorization .UPDATE_RESULTS_ONLY])

theorem c5_poll_identity_witness :
    c5PlainNode.train = false ∧
    (poll (fun op => op) c5PlainNode).2 = c5PlainNode :=
  ⟨by decide,
   c5_poll_identity (fun op => op) c5PlainNode (by decide) (by decide) (by decide)
     (Or.inr ⟨⟨.running, "updating unified dataset"⟩, by decide, rfl⟩)⟩

/-! ### Claim C4 -/

theorem monitorLoop_ok (w : Nat → Operation → Operation)
    (init : List (String × PlanNodeStatus)) :
    ∀ fuel k nodes out, monitorLoop w fuel k nodes init = .ok out →
      statusDictEq init (snapshotOf out) = false := by
  intro fuel
  induction fuel with
  | zero =>
      intro k nodes out h
      cases h
  | succ f ih =>
      intro k nodes out h
      simp only [monitorLoop] at h
      split at h
      · exact ih _ _ _ h
      · next hcond =>
          cases h
          simpa using hcond

theorem monitorLoop_timeout (w : Nat → Operation → Operation)
    (init : List (String × PlanNodeStatus)) (nodes0 : List PlanNode) :
    ∀ fuel k,
      (∀ j, j < fuel →
        statusDictEq init (snapshotOf (polledAt w nodes0 (k + j))) = true) →
      monitorLoop w fuel k (iterNodes w nodes0 k) init = .error "timed out" := by
  intro fuel
  induction fuel with
  | zero =>
      intro k _
      rfl
  | succ f ih =>
      intro k h
      have h0 := h 0 (Nat.succ_pos f)
      rw [Nat.add_zero] at h0
      simp only [polledAt] at h0
      simp only [monitorLoop, h0, if_pos]
      have hnext : ((iterNodes w nodes0 k).map (poll (w k))).map (fun q => q.1)
          = iterNodes w nodes0 (k + 1) := rfl
      rw [hnext]
      refine ih (k + 1) fun j hj => ?_
      have := h (j + 1) (Nat.succ_lt_succ hj)
      rwa [show k + (j + 1) = k + 1 + j by omega] at this

theorem monitorLoop_first_change (w : Nat → Operation → Operation)
    (init : List (String × PlanNodeStatus)) (nodes0 : List PlanNode) :
    ∀ c fuel k, c < fuel →
      (∀ j, j < c →
        statusDictEq init (snapshotOf (polledAt w nodes0 (k + j))) = true) →
      statusDictEq init (snapshotOf (polledAt w nodes0 (k + c))) = false →
      monitorLoop w fuel k (iterNodes w nodes0 k) init
        = .ok (polledAt w nodes0 (k + c)) := by
  intro c
  induction c with
  | zero =>
      intro fuel k hc hall hchange
      match fuel, hc with
      | f + 1, _ =>
        rw [Nat.add_zero] at hchange
        simp only [polledAt] at hchange
        simp only [monitorLoop, hchange, Bool.false_eq_true, if_neg, if_false]
        rw [Nat.add_zero]
        rfl
  | succ c ih =>
      intro fuel k hc hall hchange
      match fuel, hc with
      | f + 1, hc =>
        have h0 := hall 0 (Nat.succ_pos c)
        rw [Nat.add_zero] at h0
        simp only [polledAt] at h0
        simp only [monitorLoop, h0, if_pos]
        have hnext : ((iterNodes w nodes0 k).map (poll (w k))).map (fun q => q.1)
            = iterNodes w nodes0 (k + 1) := rfl
        rw [hnext, show k + (c + 1) = k + 1 + c by omega]
        refine ih f (k + 1) (Nat.lt_of_succ_lt_succ hc) (fun j hj => ?_) ?_
        · have := hall (j + 1) (Nat.succ_lt_succ hj)
          rwa [show k + (j + 1) = k + 1 + j by omega] at this
        · rwa [show k + 1 + c = k + (c + 1) by omega]

/-- C4: for every non-empty input list, `monitor` (1) never returns normally
with a snapshot dict equal to the initially captured one, (2) raises the
fatal timeout error when the per-round snapshot never differs within the
rounds the timeout (in whole days) admits, and (3) returns the freshly polled
node list of the first round whose snapshot differs from the initial one.
Wall-clock time is modelled discretely: each round sleeps exactly
`polling_interval` seconds. -/
theorem c4_monitor (w : Nat → Operation → Operation) (nodes : List PlanNode)
    (timeout polling_interval : Nat) (hne : nodes ≠ []) :
    (∀ out, monitor w nodes timeout polling_interval = .ok out →
      statusDictEq (snapshotOf nodes) (snapshotOf out) = false) ∧
    ((∀ k, k < numPolls timeout polling_interval →
        statusDictEq (snapshotOf nodes) (snapshotOf (polledAt w nodes k)) = true) →
      monitor w nodes timeout polling_interval = .error "timed out") ∧
    (∀ k, k < numPolls timeout polling_interval →
      (∀ j, j < k →
        statusDictEq (snapshotOf nodes) (snapshotOf (polledAt w nodes j)) = true) →
      statusDictEq (snapshotOf nodes) (snapshotOf (polledAt w nodes k)) = false →
      monitor w nodes timeout polling_interval = .ok (polledAt w nodes k)) := by
  have hno : nodes.isEmpty = false := by
    cases nodes with
    | nil => exact absurd rfl hne
    | cons a t => rfl
  have hm : monitor w nodes timeout polling_interval
      = monitorLoop w (numPolls timeout polling_interval) 0 nodes (snapshotOf nodes) := by
    unfold monitor
    rw [hno]
    rfl
  refine ⟨?_, ?_, ?_⟩
  · intro out h
    rw [hm] at h
    exact monitorLoop_ok w (snapshotOf nodes) _ 0 nodes out h
  · intro h
    rw [hm]
    have := monitorLoop_timeout w (snapshotOf nodes) nodes
      (numPolls timeout polling_interval) 0 (fun j hj => by
        rw [Nat.zero_add]
        exact h j hj)
    rwa [show iterNodes w nodes 0 = nodes from rfl] at this
  · intro k hk hall hchange
    rw [hm]
    have := monitorLoop_first_change w (snapshotOf nodes) nodes k
      (numPolls timeout polling_interval) 0 hk
      (fun j hj => by
        rw [Nat.zero_add]
        exact hall j hj)
      (by rw [Nat.zero_add]; exact hchange)
    rw [show iterNodes w nodes 0 = nodes from rfl] at this
    rwa [Nat.zero_add] at this

/-- A node for the C4 witness: a RUNNING node whose job never changes. -/
def c4Node : PlanNode :=
  mkPlanNode "s" (some [⟨.running, "steady"⟩]) ⟨"s", .SCHEMA_MAPPING_RECOMMENDATIONS⟩ 0
    (some ⟨.running, "steady"⟩) .running false
    (some (.schemaMapping .UPDATE_UNIFIED_DATASET)) (some [])

theorem c4_monitor_witness :
    ([c4Node] ≠ ([] : List PlanNode)) ∧
    monitor (fun _ op => op) [c4Node] 1 86400 = .error "timed out" :=
  ⟨by decide,
   (c4_monitor (fun _ op => op) [c4Node] 1 86400 (by decide)).2.1 (by decide)⟩

/-! ### Freshly built plans satisfy the run invariants

The C2 theorem assumes the two run invariants (`PredsSettled`,
`DownstreamFresh`) of the plan in which the failure is applied.  They are
preserved by every scheduler step (`step_preserves`); here they are shown to
hold of the plan `from_graph` builds, for any graph whose tier mapping is
consistent with its edges (predecessors sit in strictly lower tiers,
downstream nodes in strictly higher ones — the spec's definition of a
tier). -/

/-- The plan dict built by `from_graph`, as a lookup function: the last node
inserted under a name wins (dict semantics).  Unlisted names — which
`update_plan` would never touch on a well-formed graph — default to an inert
PLANNED node. -/
def fromGraphPlan (tierGraph : List (Nat × List String)) (startingTier : Nat)
    (train : Bool) (projects : String → Project) : String → PlanNode :=
  fun v =>
    ((fromGraphNodes tierGraph startingTier train projects).reverse.find?
        (fun n => n.name == v)).getD
      (mkPlanNode v none (projects v) 0 none .planned train none none)

theorem fromGraphNodes_map_name (tierGraph : List (Nat × List String))
    (startingTier : Nat) (train : Bool) (projects : String → Project) :
    (fromGraphNodes tierGraph startingTier train projects).map (fun n => n.name)
      = tierGraph.flatMap (fun tl => tl.2) := by
  simp only [fromGraphNodes, List.flatMap_def, List.map_flatten, List.map_map,
    Function.comp_def]
  congr 1
  refine List.map_congr_left fun tl _ => ?_
  exact List.enum_map_snd tl.2

theorem fromGraphPlan_status_of_mem (tierGraph : List (Nat × List String))
    (startingTier : Nat) (train : Bool) (projects : String → Project)
    (hnodup : (tierGraph.flatMap (fun tl => tl.2)).Nodup)
    {t : Nat} {l : List String} {v : String}
    (htl : (t, l) ∈ tierGraph) (hv : v ∈ l) :
    ((fromGraphPlan tierGraph startingTier train projects) v).status =
      if t < startingTier then .skippable
      else if t = startingTier then .runnable
      else .planned := by
  obtain ⟨i, hi, hgv⟩ := List.mem_iff_getElem.mp hv
  have henum : (i, v) ∈ l.enum := by
    rw [List.mem_enum_iff_getElem?]
    exact List.getElem?_eq_some.mpr ⟨hi, hgv⟩
  have hmem : mkPlanNode v none (projects v) (100 * (t : Int) + i) none
      (if t < startingTier then .skippable
       else if t = startingTier then .runnable
       else .planned) train none none
      ∈ fromGraphNodes tierGraph startingTier train projects := by
    simp only [fromGraphNodes, List.mem_flatMap, List.mem_map]
    exact ⟨(t, l), htl, (i, v), henum, rfl⟩
  have hinj : ∀ a ∈ fromGraphNodes tierGraph startingTier train projects,
      ∀ b ∈ fromGraphNodes tierGraph startingTier train projects,
      a.name = b.name → a = b := by
    have hnames : ((fromGraphNodes tierGraph startingTier train projects).map
        (fun n => n.name)).Nodup := by
      rw [fromGraphNodes_map_name]
      exact hnodup
    exact fun a ha b hb hab => List.inj_on_of_nodup_map hnames ha hb hab
  cases hfind : (fromGraphNodes tierGraph startingTier train projects).reverse.find?
      (fun n => n.name == v) with
  | none =>
      exfalso
      have := List.find?_eq_none.mp hfind _ (List.mem_reverse.mpr hmem)
      simp [mkPlanNode] at this
  | some n =>
      have hpred := List.find?_some hfind
      have hnmem : n ∈ fromGraphNodes tierGraph startingTier train projects :=
        List.mem_reverse.mp (List.mem_of_find?_eq_some hfind)
      have hname : n.name = v := by simpa using hpred
      have heq : n = mkPlanNode v none (projects v) (100 * (t : Int) + i) none
          (if t < startingTier then .skippable
           else if t = startingTier then .runnable
           else .planned) train none none := by
        refine hinj n hnmem _ hmem ?_
        rw [hname]
        rfl
      show (((fromGraphNodes tierGraph startingTier train projects).reverse.find?
          (fun n => n.name == v)).getD _).status = _
      rw [hfind, Option.getD_some, heq]
      rfl

theorem fromGraphPlan_status_of_not_mem (tierGraph : List (Nat × List String))
    (startingTier : Nat) (train : Bool) (projects : String → Project)
    {v : String} (hv : ¬∃ r ∈ tierGraph, v ∈ r.2) :
    ((fromGraphPlan tierGraph startingTier train projects) v).status = .planned := by
  have hnone : (fromGraphNodes tierGraph startingTier train projects).reverse.find?
      (fun n => n.name == v) = none := by
    rw [List.find?_eq_none]
    intro n hn
    have hn' : n ∈ fromGraphNodes tierGraph startingTier train projects :=
      List.mem_reverse.mp hn
    simp only [fromGraphNodes, List.mem_flatMap, List.mem_map] at hn'
    obtain ⟨tl, htl, np, hnp, rfl⟩ := hn'
    simp only [mkPlanNode, beq_iff_eq]
    intro hc
    apply hv
    refine ⟨tl, htl, ?_⟩
    rw [← hc]
    exact List.getElem?_mem (List.mem_enum_iff_getElem?.mp hnp)
  show (((fromGraphNodes tierGraph startingTier train projects).reverse.find?
      (fun n => n.name == v)).getD _).status = _
  rw [hnone, Option.getD_none]
  rfl

theorem fromGraph_satisfies_invariants (G : Graph)
    (tierGraph : List (Nat × List String)) (startingTier : Nat) (train : Bool)
    (projects : String → Project)
    (hnodup : (tierGraph.flatMap (fun tl => tl.2)).Nodup)
    (hpredTier : ∀ p ∈ tierGraph, ∀ v ∈ p.2, ∀ q ∈ predsOf G v,
      ∃ r ∈ tierGraph, q ∈ r.2 ∧ r.1 < p.1)
    (hdownTier : ∀ p ∈ tierGraph, ∀ v ∈ p.2, ∀ z ∈ downstreamOf G v,
      ∃ r ∈ tierGraph, z ∈ r.2 ∧ p.1 < r.1) :
    PredsSettled G (fromGraphPlan tierGraph startingTier train projects) ∧
    DownstreamFresh G (fromGraphPlan tierGraph startingTier train projects) := by
  constructor
  · intro v hv q hq
    by_cases hex : ∃ r ∈ tierGraph, v ∈ r.2
    · obtain ⟨⟨t, l⟩, htl, hvl⟩ := hex
      have hst := fromGraphPlan_status_of_mem tierGraph startingTier train projects
        hnodup htl hvl
      rw [hst] at hv
      have ht : t = startingTier := by
        split_ifs at hv with h1 h2
        · exact absurd hv (by simp [isStarted])
        · exact h2
        · exact absurd hv (by simp [isStarted])
      obtain ⟨⟨t', l'⟩, htl', hql', hlt⟩ := hpredTier (t, l) htl v hvl q hq
      have hqst := fromGraphPlan_status_of_mem tierGraph startingTier train projects
        hnodup htl' hql'
      rw [hqst, if_pos (show t' < startingTier by omega)]
      exact Or.inr rfl
    · have hst := fromGraphPlan_status_of_not_mem tierGraph startingTier train
        projects hex
      rw [hst] at hv
      exact absurd hv (by simp [isStarted])
  · intro v hv z hz
    by_cases hex : ∃ r ∈ tierGraph, v ∈ r.2
    · obtain ⟨⟨t, l⟩, htl, hvl⟩ := hex
      have hst := fromGraphPlan_status_of_mem tierGraph startingTier train projects
        hnodup htl hvl
      rw [hst] at hv
      have ht : t = startingTier := by
        split_ifs at hv with h1 h2
        · exact absurd hv (by simp [isActive])
        · exact h2
        · exact absurd hv (by simp [isActive])
      obtain ⟨⟨t', l'⟩, htl', hzl', hgt⟩ := hdownTier (t, l) htl v hvl z hz
      have hzst := fromGraphPlan_status_of_mem tierGraph startingTier train projects
        hnodup htl' hzl'
      rw [hzst, if_neg (show ¬t' < startingTier by omega),
        if_neg (show ¬t' = startingTier by omega)]
      exact Or.inl rfl
    · have hst := fromGraphPlan_status_of_not_mem tierGraph startingTier train
        projects hex
      rw [hst] at hv
      exact absurd hv (by simp [isActive])

end TamrToolbox
